import Mathlib

/-!
Shallow embedding of the BioCypher ontology-mapping and batch-serialization
pipeline (modules `_entity.py`, `_meta.py`, `_translate.py`, `_biolink.py`,
`_write.py`), together with theorems settling the specification claims.

Python dicts are embedded as association lists with unique keys and
insertion-order semantics; Python exceptions as an `Except PyErr` result;
Python property values as the `PVal` inductive.
-/

/-- Python exceptions that the embedded code can raise. -/
inductive PyErr where
  | keyError : PyErr
  | attributeError : PyErr
  | valueError : String → PyErr
  | runtimeStopIteration : PyErr
  | notImplemented : String → PyErr
deriving DecidableEq, Repr

/-- Python-like property values occurring in BioCypher records: `None`,
booleans, integers, strings and lists of strings. -/
inductive PVal where
  | vnone : PVal
  | vbool : Bool → PVal
  | vint : Int → PVal
  | vstr : String → PVal
  | vlist : List String → PVal
deriving DecidableEq, Repr

/-- Python truthiness of a property value. -/
def pyTruthy : PVal → Bool
  | .vnone => false
  | .vbool b => b
  | .vint n => n != 0
  | .vstr s => s != ""
  | .vlist l => !l.isEmpty

/-- Python `x == True` (recall that in Python `1 == True`). -/
def pyEqTrue : Option PVal → Bool
  | some (.vbool b) => b
  | some (.vint n) => n == 1
  | _ => false

/-- Python `str()` of a property value, as used in string concatenation. -/
def pyStr : PVal → String
  | .vnone => "None"
  | .vbool b => if b then "True" else "False"
  | .vint n => toString n
  | .vstr s => s
  | .vlist l => "[" ++ String.intercalate ", " (l.map (fun s => "\x27" ++ s ++ "\x27")) ++ "]"

/-- First-match lookup in an association list (Python dict read). -/
def alGet {α : Type} (m : List (String × α)) (k : String) : Option α :=
  match m with
  | [] => none
  | (k2, v) :: rest => if k2 = k then some v else alGet rest k

/-- Python `key in dict`. -/
def alHas {α : Type} (m : List (String × α)) (k : String) : Bool :=
  (alGet m k).isSome

/-- Python dict assignment: update in place if the key exists, else append. -/
def alSet {α : Type} (m : List (String × α)) (k : String) (v : α) : List (String × α) :=
  match m with
  | [] => [(k, v)]
  | (k2, v2) :: rest => if k2 = k then (k, v) :: rest else (k2, v2) :: alSet rest k v

/-- Python `del dict[key]` (keys are unique in dicts built by `alSet`). -/
def alDel {α : Type} (m : List (String × α)) (k : String) : List (String × α) :=
  m.filter (fun p => p.1 ≠ k)

/-- Python `in` for substrings, on character lists. -/
def occursL (pat : List Char) (s : List Char) : Bool :=
  match s with
  | [] => pat.isEmpty
  | _ :: rest => pat.isPrefixOf s || occursL pat rest

/-- Python `in` for substrings. -/
def strIn (pat s : String) : Bool :=
  occursL pat.data s.data

/-- Python `str.replace`, left to right, non-overlapping, on character lists,
with explicit fuel (`replaceL` always supplies enough). -/
def replaceGo : Nat → List Char → List Char → List Char → List Char
  | 0, s, _, _ => s
  | fuel + 1, s, pat, rep =>
    match s with
    | [] => []
    | c :: rest =>
      if !pat.isEmpty && pat.isPrefixOf (c :: rest) then
        rep ++ replaceGo fuel ((c :: rest).drop pat.length) pat rep
      else
        c :: replaceGo fuel rest pat rep

/-- Python `str.replace`, left to right, non-overlapping.
The embedded code never calls it with an empty pattern. -/
def replaceL (s pat rep : List Char) : List Char :=
  replaceGo s.length s pat rep

/-- Python `str.replace`. -/
def pyReplace (s pat rep : String) : String :=
  ⟨replaceL s.data pat.data rep.data⟩

/-- A schema field that may hold a string or a list of strings. -/
inductive StrOrList where
  | s : String → StrOrList
  | l : List String → StrOrList
deriving DecidableEq, Repr

/-- `neo4j_utils` `to_list`: wrap a scalar into a singleton, keep lists. -/
def toListSL : StrOrList → List String
  | .s x => [x]
  | .l xs => xs

/-- One declared entity type from the schema config (a Python dict in the
source; `Option` fields model key presence, `Bool` fields truthy presence). -/
structure SchemaEntry where
  represented_as : Option StrOrList
  label_in_input : Option StrOrList
  preferred_id : Option StrOrList
  source : Option StrOrList
  target : Option StrOrList
  is_a : Option StrOrList
  virtual : Bool
  inherit_properties : Bool
  properties : Option (List (String × String))
  exclude_properties : Option (List (String × String))
  label_as_edge : Option String
  synonym_for : Option String
deriving DecidableEq, Repr

/-- The schema entry with no keys set, base for building concrete entries. -/
def SchemaEntry.empty : SchemaEntry :=
  ⟨none, none, none, none, none, none, false, false, none, none, none, none⟩

/-- A schema: canonical type name to entry, as an insertion-ordered dict. -/
abbrev Leaves : Type := List (String × SchemaEntry)

/-- Python `str.capitalize`: first character upper-cased, rest lower-cased. -/
def pyCapitalize (s : String) : String :=
  match s.data with
  | [] => ""
  | c :: cs => String.mk (c.toUpper :: cs.map Char.toLower)

/-- `Node` from `_entity.py` (`__slots__` namedtuple): id, Neo4j label,
identifier namespace and property dict. -/
structure Node where
  id : String
  label : String
  id_type : PVal
  props : List (String × PVal)
deriving DecidableEq, Repr

/-- `Node.__new__` from `_entity.py`: duplicate `id` and `id_type` into the
properties (`id_type or None`), drop the reserved `:TYPE` key
(`_type_in_properties`; `_process_str_props` returns its input unchanged),
and capitalize the label. -/
def Node.new (id : String) (label : String) (idType : PVal)
    (props : List (String × PVal)) : Node :=
  let props := alSet props "id" (.vstr id)
  let props := alSet props "id_type" (if pyTruthy idType then idType else .vnone)
  let props := if alHas props ":TYPE" then alDel props ":TYPE" else props
  { id := id, label := pyCapitalize label, id_type := idType, props := props }

/-- Modelled from the spec: `BioCypherEdge` of the missing `_create.py`
(§3 "Typed entity": Edge has `source`, `target`, `label`, `props`; the label
is stored as passed, so it is kept as a raw property value here because
`translate_edges` can pass a filtered property value straight through). -/
structure BioCypherEdge where
  source : String
  target : String
  label : PVal
  props : List (String × PVal)
deriving DecidableEq, Repr

/-- Modelled from the spec: `BioCypherRelAsNode` of the missing `_create.py`
(§3 "RelAsNode": a triplet of the reified node and its two connecting
edges). -/
structure BioCypherRelAsNode where
  node : Node
  source_edge : BioCypherEdge
  target_edge : BioCypherEdge
deriving DecidableEq, Repr

/-- `Translator._get_bl_type` from `_translate.py`: scan the leaves dict for
the first entry whose `label_in_input` (string, or member of a list) matches
the raw input label. -/
def getBlType (leaves : Leaves) (label : String) : Option String :=
  match leaves with
  | [] => none
  | (k, v) :: rest =>
    match v.label_in_input with
    | some (.l xs) => if label ∈ xs then some k else getBlType rest label
    | some (.s x) => if x = label then some k else getBlType rest label
    | none => getBlType rest label

/-- `Translator._get_preferred_id`: the entry's `preferred_id` if declared,
else `"id"`. -/
def getPreferredId (e : SchemaEntry) : PVal :=
  match e.preferred_id with
  | some (.s x) => .vstr x
  | some (.l xs) => .vlist xs
  | none => .vstr "id"

/-- String cleanup applied by `_filter_props` to string values: newlines and
carriage returns to spaces (`os.linesep` is a newline on the Linux platform
the source targets), double quotes to single quotes. -/
def cleanStr (s : String) : String :=
  pyReplace (pyReplace (pyReplace s "\n" " ") "\r" " ") "\"" "\x27"

/-- List cleanup applied by `_filter_props` to list values: join with comma,
newlines and carriage returns to spaces (no quote replacement here). -/
def cleanList (l : List String) : String :=
  pyReplace (pyReplace (String.intercalate ", " l) "\n" " ") "\r" " "

/-- Value rewriting step of `_filter_props`. -/
def filterVal : PVal → PVal
  | .vstr s => .vstr (cleanStr s)
  | .vlist l => .vstr (cleanList l)
  | v => v

/-- `Translator._filter_props` from `_translate.py`: if the entry declares a
(non-empty) property whitelist, keep only whitelisted keys, rewrite string
and list values, then append every missing whitelisted key with `None`;
otherwise pass the properties through unchanged. -/
def filterProps (e : SchemaEntry) (props : List (String × PVal)) :
    List (String × PVal) :=
  match e.properties with
  | some fp =>
    if fp.isEmpty then props
    else
      let filtered := (props.filter (fun p => alHas fp p.1)).map
        (fun p => (p.1, filterVal p.2))
      let missing := (fp.map Prod.fst).filter (fun k => !alHas filtered k)
      filtered ++ missing.map (fun k => (k, PVal.vnone))
  | none => props

/-- `Translator._record_no_type` from `_translate.py`: bump the counter for
an unmapped raw type (Python truthiness: a stored 0 would reset to 1). -/
def recordNoType (t : String) (notype : List (String × Nat)) :
    List (String × Nat) :=
  match alGet notype t with
  | some n => if n ≠ 0 then alSet notype t (n + 1) else alSet notype t 1
  | none => alSet notype t 1

/-- `Translator.get_missing_bl_types`: accessor for the missing-type
counters. -/
def getMissingBlTypes (notype : List (String × Nat)) : List (String × Nat) :=
  notype

/-- A raw node record: `(id, type, properties)`. -/
abbrev NodeRec : Type := String × String × List (String × PVal)

/-- `Translator.translate_nodes` from `_translate.py`: resolve each record's
type via `_get_bl_type`; on a hit, filter the properties and yield a node
built from id, canonical type, preferred id and filtered properties (the
missing `_create.BioCypherNode` is the repository's `_entity.Node`); on a
miss, record the raw type and drop the record. On a Python dict the loop's
`self.leaves[bl_type]` returns exactly the entry found by the scan, which is
the first entry with that key. -/
def translateNodes (leaves : Leaves) (notype : List (String × Nat)) :
    List NodeRec → List Node × List (String × Nat)
  | [] => ([], notype)
  | (i, t, ps) :: rest =>
    match getBlType leaves t with
    | some bt =>
      match alGet leaves bt with
      | some e =>
        let n := Node.new i bt (getPreferredId e) (filterProps e ps)
        let r := translateNodes leaves notype rest
        (n :: r.1, r.2)
      | none =>
        let r := translateNodes leaves notype rest
        r
    | none => translateNodes leaves (recordNoType t notype) rest

/-- Python truthiness of `dict.get(key)`. -/
def pyTruthyO : Option PVal → Bool
  | some v => pyTruthy v
  | none => false

/-- A raw edge record: a 4-tuple `(source, target, type, props)` or a 5-tuple
`(id, source, target, type, props)`. -/
inductive EdgeItem where
  | t4 : String → String → String → List (String × PVal) → EdgeItem
  | t5 : Option String → String → String → String → List (String × PVal) → EdgeItem
deriving DecidableEq, Repr

/-- Normalized edge record `(id, source, target, type, props)`. -/
abbrev Quint : Type :=
  Option String × String × String × String × List (String × PVal)

/-- Outputs of `translate_edges`: plain edges or reified relationships. -/
inductive EdgeOut where
  | edge : BioCypherEdge → EdgeOut
  | relAsNode : BioCypherRelAsNode → EdgeOut
deriving DecidableEq, Repr

/-- Loop body of `Translator.translate_edges` from `_translate.py` for a
record whose type resolved to leaf `bt` with entry `e`: filter the
properties; if the type is `represented_as: node`, build a reified
`RelAsNode` whose node id is the caller-supplied id if truthy, else the
underscore concatenation of source, target and the filtered property values,
with connecting-edge labels chosen by the `directed` / `src_role`+`tar_role`
checks; otherwise a plain edge labelled `label_as_edge` or the leaf name.
A missing `represented_as` key raises. -/
def translateEdgeItem (bt : String) (e : SchemaEntry) (q : Quint) :
    Except PyErr EdgeOut :=
  let (id?, src, tar, _ty, props) := q
  let fp := filterProps e props
  match e.represented_as with
  | none => .error .keyError
  | some rep =>
    if rep = .s "node" then
      let node_id :=
        match id? with
        | some i => if i ≠ "" then i else
            src ++ "_" ++ tar ++ "_" ++
              String.intercalate "_" (fp.map (fun p => pyStr p.2))
        | none =>
            src ++ "_" ++ tar ++ "_" ++
              String.intercalate "_" (fp.map (fun p => pyStr p.2))
      let n := Node.new node_id bt (PVal.vstr "id") fp
      let ls :=
        if pyEqTrue (alGet fp "directed") then
          (PVal.vstr "IS_SOURCE_OF", PVal.vstr "IS_TARGET_OF")
        else if pyTruthyO (alGet fp "src_role") && pyTruthyO (alGet fp "tar_role") then
          ((alGet fp "src_role").getD .vnone, (alGet fp "tar_role").getD .vnone)
        else
          (PVal.vstr "IS_PART_OF", PVal.vstr "IS_PART_OF")
      let e_s : BioCypherEdge := ⟨src, node_id, ls.1, []⟩
      let e_t : BioCypherEdge := ⟨tar, node_id, ls.2, []⟩
      .ok (.relAsNode ⟨n, e_s, e_t⟩)
    else
      let edge_label := match e.label_as_edge with
        | some le => le
        | none => bt
      .ok (.edge ⟨src, tar, .vstr edge_label, fp⟩)

/-- Main loop of `Translator.translate_edges` over normalized records:
resolve each type, translate hits, record misses. -/
def translateEdgesGo (leaves : Leaves) (notype : List (String × Nat)) :
    List Quint → Except PyErr (List EdgeOut × List (String × Nat))
  | [] => .ok ([], notype)
  | q :: rest =>
    match getBlType leaves q.2.2.2.1 with
    | some bt =>
      match alGet leaves bt with
      | some e =>
        match translateEdgeItem bt e q with
        | .error err => .error err
        | .ok out =>
          match translateEdgesGo leaves notype rest with
          | .error err => .error err
          | .ok r => .ok (out :: r.1, r.2)
      | none => .error .keyError
    | none => translateEdgesGo leaves (recordNoType q.2.2.2.1 notype) rest

/-- Length test on the peeked first record of `translate_edges`. -/
def isT4 : EdgeItem → Bool
  | .t4 _ _ _ _ => true
  | .t5 _ _ _ _ _ => false

/-- Record normalization of `translate_edges`: with a leading 4-tuple, every
record is destructured as a 4-tuple and gets a `None` id prepended; with a
leading 5-tuple, every record is destructured as a 5-tuple; a record of the
other shape raises a `ValueError` from tuple unpacking. -/
def edgeItemsToQuints (four : Bool) : List EdgeItem → Except PyErr (List Quint)
  | [] => .ok []
  | it :: rest =>
    match it with
    | .t4 s t ty ps =>
      if four then
        (edgeItemsToQuints four rest).map (fun qs => (none, s, t, ty, ps) :: qs)
      else
        .error (.valueError "not enough values to unpack")
    | .t5 i s t ty ps =>
      if four then
        .error (.valueError "too many values to unpack")
      else
        (edgeItemsToQuints four rest).map (fun qs => (i, s, t, ty, ps) :: qs)

/-- `Translator.translate_edges` from `_translate.py`: the generator
unconditionally peeks the first element (raising out of the generator on an
empty input, which PEP 479 surfaces to the caller as a `RuntimeError`), the
peeked length selects the destructuring shape, then each normalized record
is translated in turn. -/
def translateEdges (leaves : Leaves) (notype : List (String × Nat))
    (items : List EdgeItem) :
    Except PyErr (List EdgeOut × List (String × Nat)) :=
  match items with
  | [] => .error .runtimeStopIteration
  | first :: _ =>
    match edgeItemsToQuints (isT4 first) items with
    | .error e => .error e
    | .ok quints => translateEdgesGo leaves notype quints

/-- The `by` literal of `VersionNode._horizontal_inheritance`. -/
inductive HIKey where
  | preferred_id : HIKey
  | source : HIKey
deriving DecidableEq, Repr

/-- Field selected by the `by` literal. -/
def hiField (v : SchemaEntry) : HIKey → Option StrOrList
  | .preferred_id => v.preferred_id
  | .source => v.source

/-- Python `len` of a schema field value (character count on a string,
element count on a list). -/
def pyLenSL : StrOrList → Nat
  | .s x => x.length
  | .l xs => xs.length

/-- `_misc.first`: simple values pass through, lists yield their head. -/
def firstSL : StrOrList → Option String
  | .s x => some x
  | .l xs => xs.head?

/-- Python `dict.update`: apply the updates in order. -/
def updateAll (d : Leaves) (upds : Leaves) : Leaves :=
  upds.foldl (fun acc kv => alSet acc kv.1 kv.2) d

/-- `VersionNode._horizontal_inheritance` from `_meta.py`: for each element
of the element-wise zip of the `by` field, `label_in_input` and
`represented_as` (scalars broadcast to the computed length; for
`by = source` the length is `len(value["source"])`, else the maximum of the
three `to_list` lengths), create a virtual leaf `<value>.<key>` copying the
entry, overriding the zipped fields, marking it virtual and prepending `key`
to its parent list. A missing field raises a `KeyError`. -/
def horizontalInheritance (key : String) (value : SchemaEntry)
    (by_ : HIKey) : Except PyErr Leaves :=
  match hiField value by_, value.label_in_input, value.represented_as with
  | some bv, some lv, some rv =>
    let length := match by_ with
      | .source => pyLenSL bv
      | .preferred_id =>
        max (toListSL bv).length (max (toListSL lv).length (toListSL rv).length)
    let broadcast : StrOrList → List String := fun sl =>
      match sl with
      | .s x => List.replicate length x
      | .l xs => xs
    let triples := (broadcast bv).zip ((broadcast lv).zip (broadcast rv))
    .ok (triples.foldl (fun acc t =>
      alSet acc (t.1 ++ "." ++ key)
        { value with
          preferred_id := (match by_ with
            | .preferred_id => some (.s t.1)
            | .source => value.preferred_id),
          source := (match by_ with
            | .source => some (.s t.1)
            | .preferred_id => value.source),
          label_in_input := some (.s t.2.1),
          represented_as := some (.s t.2.2),
          virtual := true,
          is_a := some (.l (key :: (match value.is_a with
            | some sl => toListSL sl
            | none => []))) }) [])
  | _, _, _ => .error .keyError

/-- Loop of `VersionNode._vertical_property_inheritance` from `_meta.py`:
walk the schema keys in order; an entry with `represented_as`, `is_a` and a
truthy `inherit_properties` copies `properties` and `exclude_properties`
(when the parent has them) from its first parent; a parent that resolves to
nothing raises a `KeyError`. -/
def verticalGo (keys : List String) (s : Leaves) : Except PyErr Leaves :=
  match keys with
  | [] => .ok s
  | k :: rest =>
    match alGet s k with
    | none => verticalGo rest s
    | some v =>
      if v.represented_as.isNone || v.is_a.isNone then verticalGo rest s
      else if v.inherit_properties then
        match v.is_a with
        | none => verticalGo rest s
        | some sl =>
          match firstSL sl with
          | none => .error .keyError
          | some p =>
            match alGet s p with
            | none => .error .keyError
            | some pv =>
              let v2 := { v with
                properties := (match pv.properties with
                  | some ps => some ps
                  | none => v.properties),
                exclude_properties := (match pv.exclude_properties with
                  | some ps => some ps
                  | none => v.exclude_properties) }
              verticalGo rest (alSet s k v2)
      else verticalGo rest s

/-- `VersionNode._vertical_property_inheritance`. -/
def verticalPropertyInheritance (schema : Leaves) : Except PyErr Leaves :=
  verticalGo (schema.map Prod.fst) schema

/-- Third loop of `VersionNode.find_leaves`: default `preferred_id` to
`"id"`, then expand every list-valued `preferred_id` or `source` into
virtual leaves merged into the accumulated leaves dict. -/
def findLeavesGo (keys : List String) (s : Leaves) (leaves : Leaves) :
    Except PyErr Leaves :=
  match keys with
  | [] => .ok leaves
  | k :: rest =>
    match alGet s k with
    | none => findLeavesGo rest s leaves
    | some v =>
      if v.represented_as.isNone then findLeavesGo rest s leaves
      else
        let v2 := if v.preferred_id.isNone
          then { v with preferred_id := some (.s "id") } else v
        let s2 := alSet s k v2
        match (match v2.preferred_id with
          | some (.l _) =>
            (horizontalInheritance k v2 .preferred_id).map (updateAll leaves)
          | _ => .ok leaves) with
        | .error e => .error e
        | .ok leaves2 =>
          match (match v2.source with
            | some (.l _) =>
              (horizontalInheritance k v2 .source).map (updateAll leaves2)
            | _ => .ok leaves2) with
          | .error e => .error e
          | .ok leaves3 => findLeavesGo rest s2 leaves3

/-- `VersionNode.find_leaves` from `_meta.py`: first pass keeps entries with
a representation and no `is_a`; after vertical property inheritance, all
entries with `is_a` are merged in; finally virtual leaves are created for
every list-valued `preferred_id` (after defaulting) or `source`. -/
def findLeaves (schema : Leaves) : Except PyErr Leaves :=
  let leaves0 := schema.filter
    (fun kv => kv.2.is_a.isNone && kv.2.represented_as.isSome)
  match verticalPropertyInheritance schema with
  | .error e => .error e
  | .ok schema2 =>
    let leaves1 := updateAll leaves0 (schema2.filter (fun kv => kv.2.is_a.isSome))
    findLeavesGo (schema2.map Prod.fst) schema2 leaves1

/-- A reverse-mapping value: a single original name, or a list of original
names (a many-to-one mapping). -/
inductive RVal where
  | single : String → RVal
  | list : List String → RVal
deriving DecidableEq, Repr

/-- `BiolinkAdapter.reverse_translate` from `_biolink.py`: for each key of
the reverse mappings (dict order), if the token `:key)` or `:key]` occurs in
the current query, raise a not-implemented error when the mapping is a list,
else substitute both token forms; the error value records the offending
key. -/
def reverseTranslate : List (String × RVal) → String → Except PyErr String
  | [], q => .ok q
  | (k, rv) :: rest, q =>
    if strIn (":" ++ k ++ ")") q || strIn (":" ++ k ++ "]") q then
      match rv with
      | .list _ => .error (.notImplemented k)
      | .single r =>
        reverseTranslate rest
          (pyReplace (pyReplace q (":" ++ k ++ ")") (":" ++ r ++ ")"))
            (":" ++ k ++ "]") (":" ++ r ++ "]"))
    else reverseTranslate rest q

/-- C2 counterexample entry: list `preferred_id`, matching `label_in_input`,
and an ad-hoc parent of its own. -/
def c2xEntry : SchemaEntry :=
  { SchemaEntry.empty with
    represented_as := some (.s "node"),
    label_in_input := some (.l ["x", "y"]),
    preferred_id := some (.l ["a", "b"]),
    is_a := some (.s "parent") }

/-- The `is_a` of the first virtual leaf created for `c2xEntry`. -/
def c2xIsA : Option (Option StrOrList) :=
  match horizontalInheritance "prot" c2xEntry .preferred_id with
  | .ok out => (alGet out "a.prot").map (fun e => e.is_a)
  | .error _ => none

/-- C2 witness entry (scalar preferred id). -/
def c2wEntry : SchemaEntry :=
  { SchemaEntry.empty with
    represented_as := some (.s "node"),
    label_in_input := some (.s "protein"),
    preferred_id := some (.s "uniprot") }

/-- C2 witness entry (list preferred id of length 2). -/
def c2wlEntry : SchemaEntry :=
  { SchemaEntry.empty with
    represented_as := some (.s "node"),
    label_in_input := some (.l ["hl", "el"]),
    preferred_id := some (.l ["hgnc", "ensg"]) }

/-- C2 witness entry (edge with a list source of length 2). -/
def c2wsEntry : SchemaEntry :=
  { SchemaEntry.empty with
    represented_as := some (.s "edge"),
    label_in_input := some (.l ["il1", "il2"]),
    source := some (.l ["s1", "s2"]) }

/-- C3 counterexample entry: `preferred_id` of length 2 but `label_in_input`
of length 3. -/
def c3Entry : SchemaEntry :=
  { SchemaEntry.empty with
    represented_as := some (.s "node"),
    label_in_input := some (.l ["x", "y", "z"]),
    preferred_id := some (.l ["a", "b"]) }

/-- Virtual leaves created for the C3 counterexample entry, if expansion
succeeds. -/
def c3Res : Option Leaves :=
  match horizontalInheritance "n" c3Entry .preferred_id with
  | .ok out => some out
  | .error _ => none

/-- Schema for the C1 scenario: `protein` with three typed properties. -/
def c1Leaves : Leaves :=
  [("protein",
    { SchemaEntry.empty with
      represented_as := some (.s "node"),
      label_in_input := some (.s "protein"),
      properties := some [("name", "str"), ("score", "float"), ("taxon", "int")] })]

/-- C1 input record and translation output. -/
def c1Out : List Node × List (String × Nat) :=
  translateNodes c1Leaves []
    [("p1", "protein", [("taxon", PVal.vint 9606), ("name", PVal.vstr "x")])]

/-- Schema for the C4/C5 scenarios: `post_translational` reified as a node,
with a property whitelist for C4. -/
def c4Leaves : Leaves :=
  [("post_translational",
    { SchemaEntry.empty with
      represented_as := some (.s "node"),
      label_in_input := some (.s "post_translational"),
      properties := some [("directed", "bool"), ("effect", "int")] })]

/-- C4 translation output at the claim's scenario input. -/
def c4Out : Except PyErr (List EdgeOut × List (String × Nat)) :=
  translateEdges c4Leaves []
    [.t4 "G1" "G2" "post_translational"
      [("directed", PVal.vbool true), ("effect", PVal.vint (-1))]]

/-- The reified relationship produced in the C4 scenario, if any. -/
def c4Rel : Option BioCypherRelAsNode :=
  match c4Out with
  | .ok ([.relAsNode r], _) => some r
  | _ => none

/-- Schema for the C5 scenarios: `post_translational` reified as a node,
with no property whitelist (properties pass through). -/
def c5Leaves : Leaves :=
  [("post_translational",
    { SchemaEntry.empty with
      represented_as := some (.s "node"),
      label_in_input := some (.s "post_translational") })]

/-- Entry of the single leaf of `c5Leaves`. -/
def c5Entry : SchemaEntry :=
  { SchemaEntry.empty with
    represented_as := some (.s "node"),
    label_in_input := some (.s "post_translational") }

/-- Concrete normalized record for the C5 witness. -/
def c5Q : Quint :=
  (none, "G1", "G2", "post_translational", [("directed", PVal.vbool true)])

/-- The reified relationship the C5 witness record translates to. -/
def c5R : BioCypherRelAsNode :=
  ⟨Node.new "G1_G2_True" "post_translational" (PVal.vstr "id")
      [("directed", PVal.vbool true)],
    ⟨"G1", "G1_G2_True", PVal.vstr "IS_SOURCE_OF", []⟩,
    ⟨"G2", "G1_G2_True", PVal.vstr "IS_TARGET_OF", []⟩⟩

/-- C5 counterexample input: both `src_role` and `tar_role` present in the
properties, but `src_role` has the falsy value `""`. -/
def c5xOut : Except PyErr (List EdgeOut × List (String × Nat)) :=
  translateEdges c5Leaves []
    [.t4 "A" "B" "post_translational"
      [("src_role", PVal.vstr ""), ("tar_role", PVal.vstr "x")]]

/-- The reified relationship produced by the C5 counterexample, if any. -/
def c5xRel : Option BioCypherRelAsNode :=
  match c5xOut with
  | .ok ([.relAsNode r], _) => some r
  | _ => none

/-- Python `type(v).__name__` for property values. -/
def pyTypeName : PVal → String
  | .vnone => "NoneType"
  | .vbool _ => "bool"
  | .vint _ => "int"
  | .vstr _ => "str"
  | .vlist _ => "list"

/-- Python `set(a) == set(b)` for string lists. -/
def seteqStr (a b : List String) : Bool :=
  a.all (fun x => x ∈ b) && b.all (fun x => x ∈ a)

/-- `OrderedDict.fromkeys`-style de-duplication keeping first occurrences. -/
def dedupGo (seenAcc : List String) : List String → List String
  | [] => []
  | x :: rest =>
    if x ∈ seenAcc then dedupGo seenAcc rest
    else x :: dedupGo (x :: seenAcc) rest

/-- First-occurrence de-duplication. -/
def dedupKeepFirst (l : List String) : List String :=
  dedupGo [] l

/-- `bmt.utils.sentencecase_to_camelcase` scan (`_misc.cc` regex): a dot or
space followed by a letter is replaced by that letter upper-cased. -/
def ccL : List Char → List Char
  | [] => []
  | [c] => [c]
  | c :: c2 :: rest2 =>
    if c = Char.ofNat 46 ∨ c = Char.ofNat 32 then
      if c2.isAlpha then c2.toUpper :: ccL rest2
      else c :: ccL (c2 :: rest2)
    else c :: ccL (c2 :: rest2)

/-- `_misc.cc`: sentence case to CamelCase (a leading letter is also
upper-cased). -/
def cc (s : String) : String :=
  match s.data with
  | [] => ""
  | c :: rest => if c.isAlpha then ⟨c.toUpper :: ccL rest⟩ else ⟨ccL (c :: rest)⟩

/-- Split a character list on dots. -/
def splitDot : List Char → List (List Char)
  | [] => [[]]
  | c :: rest =>
    if c = Char.ofNat 46 then [] :: splitDot rest
    else
      match splitDot rest with
      | g :: gs => (c :: g) :: gs
      | [] => [[c]]

/-- `name_sentence_to_pascal`: convert each dot segment independently. -/
def nameSentenceToPascal (name : String) : String :=
  if strIn "." name then
    String.intercalate "." ((splitDot name.data).map (fun g => cc ⟨g⟩))
  else cc name

/-- Modelled from the spec: the writer-side `BioCypherNode` of the missing
`_create.py` (§3 Node: id, label, identifier namespace, props), with the
accessors `get_id`, `get_label`, `get_preferred_id`, `get_properties` used
by `_write.py` read off the corresponding fields. -/
structure WNode where
  id : String
  label : String
  preferred_id : String
  props : List (String × PVal)
deriving DecidableEq, Repr

/-- Modelled from the spec: the writer-side `BioCypherEdge` of the missing
`_create.py` (§3 Edge: source, target, label, props). -/
structure WEdge where
  source : String
  target : String
  label : String
  props : List (String × PVal)
deriving DecidableEq, Repr

/-- Writer configuration: field delimiter, array delimiter, quote char. -/
structure WCfg where
  delim : String
  adelim : String
  quote : String
deriving DecidableEq, Repr

/-- The parts of the `BiolinkAdapter` read by `BatchWriter`: the schema
leaves and `biolink_leaves` (per type: `None`, or its ancestors list). -/
structure BLAdapter where
  leaves : Leaves
  biolink_leaves : List (String × Option (List String))
deriving DecidableEq, Repr

/-- Reference property dict of a type bin: property name to its declared or
derived type name (`None` for a `None`-valued first-node property). -/
abbrev PropDict : Type := List (String × Option String)

/-- Persistent `BatchWriter` state: seen node ids, duplicate type names,
saved per-type property dicts, and the part files written to disk (file
label and data lines). -/
structure WState where
  seen_node_ids : List String
  duplicate_types : List String
  node_property_dict : List (String × PropDict)
  edge_property_dict : List (String × PropDict)
  parts : List (String × List String)
deriving DecidableEq, Repr

/-- A fresh writer over an empty output directory. -/
def WState.empty : WState :=
  ⟨[], [], [], [], []⟩

/-- Per-call accumulator of `_write_node_data`: the type bins, their counts,
reference property dicts and `:LABEL` strings. -/
structure NDAcc where
  bins : List (String × List WNode)
  bin_l : List (String × Nat)
  reference_props : List (String × PropDict)
  labelsMap : List (String × String)
deriving DecidableEq, Repr

/-- Python `dict.update` on generic association lists. -/
def alUpdateAll {α : Type} (d upds : List (String × α)) : List (String × α) :=
  upds.foldl (fun acc kv => alSet acc kv.1 kv.2) d

/-- Reference property dict derived from the first node of a type when the
schema declares no properties: property name to `type(v).__name__`, keeping
`None` for `None` values. -/
def nodeDerivedProps (props : List (String × PVal)) : PropDict :=
  props.map (fun p => (p.1,
    match p.2 with
    | .vnone => none
    | v => some (pyTypeName v)))

/-- The `:LABEL` column of a type: the de-duplicated ancestor chain joined
with the array delimiter, or the bare label when there are no ancestors. -/
def ancestorsLabel (cfg : WCfg) (blv : Option (List String)) (label : String) :
    String :=
  match blv with
  | some ancs =>
    if ancs.isEmpty then label
    else String.intercalate cfg.adelim (dedupKeepFirst ancs)
  | none => label

/-- One data line of `_write_single_node_list_to_file`: id, then (when the
reference property dict is non-empty) the rendered property values in
reference order (`""` for missing/None, unquoted for numeric/boolean
declared types, quoted otherwise), then the `:LABEL` string. -/
def renderNodeLine (cfg : WCfg) (prop_dict : PropDict) (labels : String)
    (n : WNode) : String :=
  if prop_dict.isEmpty then
    String.intercalate cfg.delim [n.id, labels] ++ "\n"
  else
    let plist := prop_dict.map (fun kv =>
      match alGet n.props kv.1 with
      | none => ""
      | some .vnone => ""
      | some v =>
        match kv.2 with
        | some t =>
          if t ∈ (["int", "long", "float", "double", "bool"] : List String)
          then pyStr v
          else cfg.quote ++ pyStr v ++ cfg.quote
        | none => cfg.quote ++ pyStr v ++ cfg.quote)
    String.intercalate cfg.delim
      [n.id, String.intercalate cfg.delim plist, labels] ++ "\n"

/-- `BatchWriter._write_single_node_list_to_file` from `_write.py`: each
node's property key set is compared (order-insensitively) against the
reference; a deviation aborts with the failure indicator (`none`), else the
data lines are produced. -/
def writeSingleNodeList (cfg : WCfg) (node_list : List WNode)
    (prop_dict : PropDict) (labels : String) : Option (List String) :=
  match node_list with
  | [] => some []
  | n :: rest =>
    if seteqStr (prop_dict.map Prod.fst) (n.props.map Prod.fst) then
      match writeSingleNodeList cfg rest prop_dict labels with
      | none => none
      | some ls => some (renderNodeLine cfg prop_dict labels n :: ls)
    else none

/-- Flush of the remaining bins after the node loop (`_write_node_data`
tail): each bin is written in insertion order; a consistency failure aborts
with the parts written so far. -/
def flushNodeBins (cfg : WCfg) (refs : List (String × PropDict))
    (labelsMap : List (String × String)) :
    List (String × List WNode) → WState → Bool × WState
  | [], st => (true, st)
  | (label, nl) :: rest, st =>
    match writeSingleNodeList cfg nl ((alGet refs label).getD [])
        ((alGet labelsMap label).getD "") with
    | none => (false, st)
    | some lines =>
      let st2 := if lines.isEmpty then st
        else { st with parts := st.parts ++ [(nameSentenceToPascal label, lines)] }
      flushNodeBins cfg refs labelsMap rest st2

/-- Main loop of `BatchWriter._write_node_data` from `_write.py`: skip nodes
with falsy ids; drop nodes whose id was already seen, recording the
duplicate's type name; open a new bin on the first node of a type, deriving
the reference property dict from the schema's declared properties (plus the
preferred-id field when it is not `"id"`) or from the first node, and the
`:LABEL` string from `biolink_leaves`; append to an existing bin, flushing a
full bin to a part file. A type missing from `leaves` raises an
`AttributeError`; a type missing from `biolink_leaves` raises a `KeyError`.
Returns the failure indicator, the accumulator and the writer state. -/
def nodeLoop (ad : BLAdapter) (cfg : WCfg) (batchSize : Nat) :
    List WNode → NDAcc → WState → Except PyErr (Bool × NDAcc × WState)
  | [], acc, st => .ok (true, acc, st)
  | n :: rest, acc, st =>
    if n.id = "" then nodeLoop ad cfg batchSize rest acc st
    else if n.id ∈ st.seen_node_ids then
      let st2 := if n.label ∈ st.duplicate_types then st
        else { st with duplicate_types := st.duplicate_types ++ [n.label] }
      nodeLoop ad cfg batchSize rest acc st2
    else if alHas acc.bins n.label = false then
      match alGet ad.leaves n.label with
      | none => .error .attributeError
      | some entry =>
        match alGet ad.biolink_leaves n.label with
        | none => .error .keyError
        | some blv =>
          let d : PropDict :=
            match entry.properties with
            | some cprops =>
              if cprops.isEmpty then nodeDerivedProps n.props
              else
                let d0 := cprops.map (fun p => (p.1, some p.2))
                if n.preferred_id = "id" then d0
                else alSet d0 n.preferred_id (some "str")
            | none => nodeDerivedProps n.props
          nodeLoop ad cfg batchSize rest
            { bins := alSet acc.bins n.label [n],
              bin_l := alSet acc.bin_l n.label 1,
              reference_props := alSet acc.reference_props n.label d,
              labelsMap := alSet acc.labelsMap n.label
                (ancestorsLabel cfg blv n.label) }
            { st with seen_node_ids := st.seen_node_ids ++ [n.id] }
    else
      let bin := (alGet acc.bins n.label).getD [] ++ [n]
      let cnt := (alGet acc.bin_l n.label).getD 0 + 1
      if cnt < batchSize then
        nodeLoop ad cfg batchSize rest
          { acc with
            bins := alSet acc.bins n.label bin,
            bin_l := alSet acc.bin_l n.label cnt }
          { st with seen_node_ids := st.seen_node_ids ++ [n.id] }
      else
        match writeSingleNodeList cfg bin
            ((alGet acc.reference_props n.label).getD [])
            ((alGet acc.labelsMap n.label).getD "") with
        | none => .ok (false, acc, st)
        | some lines =>
          let st2 := if lines.isEmpty then st
            else { st with
              parts := st.parts ++ [(nameSentenceToPascal n.label, lines)] }
          nodeLoop ad cfg batchSize rest
            { acc with
              bins := alSet acc.bins n.label [],
              bin_l := alSet acc.bin_l n.label 0 }
            { st2 with seen_node_ids := st2.seen_node_ids ++ [n.id] }

/-- `BatchWriter._write_node_data` from `_write.py`: run the loop, flush the
remaining bins, and save the reference property dicts into the instance's
`node_property_dict`. -/
def writeNodeData (ad : BLAdapter) (cfg : WCfg) (batchSize : Nat)
    (nodes : List WNode) (st : WState) : Except PyErr (Bool × WState) :=
  match nodeLoop ad cfg batchSize nodes ⟨[], [], [], []⟩ st with
  | .error e => .error e
  | .ok (false, _, st2) => .ok (false, st2)
  | .ok (true, acc, st2) =>
    match flushNodeBins cfg acc.reference_props acc.labelsMap acc.bins st2 with
    | (false, st3) => .ok (false, st3)
    | (true, st3) =>
      .ok (true, { st3 with
        node_property_dict :=
          alUpdateAll st3.node_property_dict acc.reference_props })

/-- `BatchWriter.write_nodes` from `_write.py`: `_write_node_data` followed
by `_write_node_headers`; the header writer fails only when
`node_property_dict` is empty (the header and import-call file outputs are
external side effects that carry no further control flow). -/
def writeNodes (ad : BLAdapter) (cfg : WCfg) (batchSize : Nat)
    (nodes : List WNode) (st : WState) : Except PyErr (Bool × WState) :=
  match writeNodeData ad cfg batchSize nodes st with
  | .error e => .error e
  | .ok (false, st2) => .ok (false, st2)
  | .ok (true, st2) =>
    if st2.node_property_dict.isEmpty then .ok (false, st2)
    else .ok (true, st2)

/-- Scan for an entry whose `label_as_edge` matches, used by
`_write_edge_data` when the edge label is not a leaf name. -/
def labelAsEdgeProps (leaves : Leaves) (label : String) :
    Option (List (String × String)) :=
  match leaves with
  | [] => none
  | (_, v) :: rest =>
    if v.label_as_edge = some label then v.properties
    else labelAsEdgeProps rest label

/-- One data line of `_write_single_edge_list_to_file`: source id, rendered
properties (when the reference dict is non-empty), target id, PascalCase
label. -/
def renderEdgeLine (cfg : WCfg) (prop_dict : PropDict) (e : WEdge) : String :=
  if prop_dict.isEmpty then
    String.intercalate cfg.delim
      [e.source, e.target, nameSentenceToPascal e.label] ++ "\n"
  else
    let plist := prop_dict.map (fun kv =>
      match alGet e.props kv.1 with
      | none => ""
      | some .vnone => ""
      | some v =>
        match kv.2 with
        | some t =>
          if t ∈ (["int", "long", "float", "double", "bool"] : List String)
          then pyStr v
          else cfg.quote ++ pyStr v ++ cfg.quote
        | none => cfg.quote ++ pyStr v ++ cfg.quote)
    String.intercalate cfg.delim
      [e.source, String.intercalate cfg.delim plist, e.target,
        nameSentenceToPascal e.label] ++ "\n"

/-- `BatchWriter._write_single_edge_list_to_file` from `_write.py`: edges
with a falsy source or target id are skipped; a property key set deviating
from the reference aborts with the failure indicator. -/
def writeSingleEdgeList (cfg : WCfg) (edge_list : List WEdge)
    (prop_dict : PropDict) : Option (List String) :=
  match edge_list with
  | [] => some []
  | e :: rest =>
    if e.source = "" then writeSingleEdgeList cfg rest prop_dict
    else if e.target = "" then writeSingleEdgeList cfg rest prop_dict
    else if seteqStr (prop_dict.map Prod.fst) (e.props.map Prod.fst) then
      match writeSingleEdgeList cfg rest prop_dict with
      | none => none
      | some ls => some (renderEdgeLine cfg prop_dict e :: ls)
    else none

/-- Per-call accumulator of `_write_edge_data`. -/
structure EDAcc where
  bins : List (String × List WEdge)
  bin_l : List (String × Nat)
  reference_props : List (String × PropDict)
deriving DecidableEq, Repr

/-- Flush of the remaining edge bins. -/
def flushEdgeBins (cfg : WCfg) (refs : List (String × PropDict)) :
    List (String × List WEdge) → WState → Bool × WState
  | [], st => (true, st)
  | (label, nl) :: rest, st =>
    match writeSingleEdgeList cfg nl ((alGet refs label).getD []) with
    | none => (false, st)
    | some lines =>
      let st2 := if lines.isEmpty then st
        else { st with parts := st.parts ++ [(nameSentenceToPascal label, lines)] }
      flushEdgeBins cfg refs rest st2

/-- Main loop of `BatchWriter._write_edge_data` from `_write.py`: edges are
binned by label with NO duplicate checking (the source carries a
`TODO duplicate rel checking?` comment); the reference property dict of a
bin comes from the schema (directly, or via a `label_as_edge` scan), else
from the first edge's property type names; full bins are flushed. -/
def edgeLoop (ad : BLAdapter) (cfg : WCfg) (batchSize : Nat) :
    List WEdge → EDAcc → WState → Bool × EDAcc × WState
  | [], acc, st => (true, acc, st)
  | e :: rest, acc, st =>
    if alHas acc.bins e.label = false then
      let cprops : Option (List (String × String)) :=
        match alGet ad.leaves e.label with
        | some entry => entry.properties
        | none => labelAsEdgeProps ad.leaves e.label
      let d : PropDict :=
        match cprops with
        | some cp =>
          if cp.isEmpty then
            e.props.map (fun p => (p.1,
              match p.2 with
              | .vnone => none
              | v => some (pyTypeName v)))
          else cp.map (fun p => (p.1, some p.2))
        | none =>
          e.props.map (fun p => (p.1,
            match p.2 with
            | .vnone => none
            | v => some (pyTypeName v)))
      edgeLoop ad cfg batchSize rest
        { bins := alSet acc.bins e.label [e],
          bin_l := alSet acc.bin_l e.label 1,
          reference_props := alSet acc.reference_props e.label d }
        st
    else
      let bin := (alGet acc.bins e.label).getD [] ++ [e]
      let cnt := (alGet acc.bin_l e.label).getD 0 + 1
      if cnt < batchSize then
        edgeLoop ad cfg batchSize rest
          { acc with
            bins := alSet acc.bins e.label bin,
            bin_l := alSet acc.bin_l e.label cnt }
          st
      else
        match writeSingleEdgeList cfg bin
            ((alGet acc.reference_props e.label).getD []) with
        | none => (false, acc, st)
        | some lines =>
          let st2 := if lines.isEmpty then st
            else { st with
              parts := st.parts ++ [(nameSentenceToPascal e.label, lines)] }
          edgeLoop ad cfg batchSize rest
            { acc with
              bins := alSet acc.bins e.label [],
              bin_l := alSet acc.bin_l e.label 0 }
            st2

/-- `BatchWriter._write_edge_data` from `_write.py`. -/
def writeEdgeData (ad : BLAdapter) (cfg : WCfg) (batchSize : Nat)
    (edges : List WEdge) (st : WState) : Bool × WState :=
  match edgeLoop ad cfg batchSize edges ⟨[], [], []⟩ st with
  | (false, _, st2) => (false, st2)
  | (true, acc, st2) =>
    match flushEdgeBins cfg acc.reference_props acc.bins st2 with
    | (false, st3) => (false, st3)
    | (true, st3) =>
      (true, { st3 with
        edge_property_dict :=
          alUpdateAll st3.edge_property_dict acc.reference_props })

/-- Writer configuration used by the C7/C8 scenarios. -/
def w78Cfg : WCfg :=
  ⟨";", "|", "\x27"⟩

/-- Adapter for the C7 edge counterexample. -/
def c7Ad : BLAdapter :=
  ⟨[("likes",
     { SchemaEntry.empty with
       represented_as := some (.s "edge"),
       label_in_input := some (.s "likes") })],
   [("likes", some ["Likes"])]⟩

/-- The duplicated edge of the C7 counterexample. -/
def c7Edge : WEdge :=
  ⟨"a", "b", "likes", [("w", PVal.vint 1)]⟩

/-- Result of writing the same edge twice in one call. -/
def c7Res : Bool × WState :=
  writeEdgeData c7Ad w78Cfg 1000000 [c7Edge, c7Edge] WState.empty

/-- Adapter for the C8 counterexample and the C7/C8 witnesses. -/
def c8xAd : BLAdapter :=
  ⟨[("protein",
     { SchemaEntry.empty with
       represented_as := some (.s "node"),
       label_in_input := some (.s "protein") })],
   [("protein", some ["Protein"])]⟩

/-- First node of the C8 counterexample. -/
def c8xN1 : WNode :=
  ⟨"p1", "protein", "id", [("a", PVal.vint 1)]⟩

/-- Second node of the C8 counterexample: same id, different key set. -/
def c8xN2 : WNode :=
  ⟨"p1", "protein", "id", [("b", PVal.vstr "z")]⟩

/-- Result of writing two same-id nodes with differing key sets. -/
def c8xRes : Except PyErr (Bool × WState) :=
  writeNodes c8xAd w78Cfg 1000000 [c8xN1, c8xN2] WState.empty

/-- Helper: lookup distributes over append. -/
theorem alGet_append {α : Type} (m1 m2 : List (String × α)) (k : String) :
    alGet (m1 ++ m2) k =
      (match alGet m1 k with
       | some v => some v
       | none => alGet m2 k) := by
  induction m1 with
  | nil => simp [alGet]
  | cons p rest ih =>
    obtain ⟨k2, v2⟩ := p
    by_cases h : k2 = k <;> simp [alGet, h, ih]

/-- Helper: assigning a fresh key appends it. -/
theorem alSet_fresh {α : Type} (m : List (String × α)) (k : String) (v : α)
    (h : alGet m k = none) : alSet m k v = m ++ [(k, v)] := by
  induction m with
  | nil => simp [alSet]
  | cons p rest ih =>
    obtain ⟨k2, v2⟩ := p
    by_cases h2 : k2 = k
    · simp [alGet, h2] at h
    · simp only [alGet, if_neg h2] at h
      simp [alSet, h2, ih h]

/-- Helper: a fold of fresh assignments with pairwise distinct keys builds
the corresponding association list. -/
theorem foldl_alSet_fresh {α β : Type} (g : α → String) (f : α → β)
    (l : List α) :
    ∀ acc : List (String × β),
      (∀ a ∈ l, alGet acc (g a) = none) → (l.map g).Nodup →
      l.foldl (fun m a => alSet m (g a) (f a)) acc =
        acc ++ l.map (fun a => (g a, f a)) := by
  induction l with
  | nil => intro acc _ _; simp
  | cons a rest ih =>
    intro acc hfresh hnd
    rw [List.map_cons] at hnd
    obtain ⟨hna, hndr⟩ := List.nodup_cons.mp hnd
    have hst : alSet acc (g a) (f a) = acc ++ [(g a, f a)] :=
      alSet_fresh _ _ _ (hfresh a (by simp))
    simp only [List.foldl_cons, hst]
    rw [ih (acc ++ [(g a, f a)]) ?fresh hndr]
    · simp
    case fresh =>
      intro b hb
      rw [alGet_append, hfresh b (by simp [hb])]
      have hne : ¬ g a = g b := by
        intro hcontra
        exact hna (hcontra ▸ List.mem_map_of_mem g hb)
      simp [alGet, hne]

/-- Helper: zipping against a long enough constant list pairs elementwise. -/
theorem zip_replicate_of_le {α γ : Type} (c : γ) :
    ∀ (A : List α) (n : Nat), A.length ≤ n →
      A.zip (List.replicate n c) = A.map (fun a => (a, c)) := by
  intro A
  induction A with
  | nil => intro n _; simp
  | cons a rest ih =>
    intro n hn
    cases n with
    | zero => simp at hn
    | succ m =>
      simp only [List.replicate_succ, List.zip_cons_cons, List.map_cons]
      rw [ih m (by simpa using hn)]

/-- Helper: the first components of a zip are a sublist of the left list. -/
theorem map_fst_zip_sublist {α β : Type} :
    ∀ (A : List α) (B : List β), ((A.zip B).map Prod.fst).Sublist A := by
  intro A
  induction A with
  | nil => intro B; simp
  | cons a rest ih =>
    intro B
    cases B with
    | nil => simp
    | cons b bs =>
      simpa using List.Sublist.cons₂ a (ih bs)

/-- Helper: appending a fixed suffix to a string is injective. -/
theorem append_string_inj (s : String) :
    Function.Injective (fun p : String => p ++ s) := by
  intro a b h
  have hd : a.data ++ s.data = b.data ++ s.data := by
    have h2 := congrArg String.data h
    simpa using h2
  have hlen : a.data.length = b.data.length := by
    have h3 := congrArg List.length hd
    simp only [List.length_append] at h3
    omega
  have hdata : a.data = b.data := List.append_inj_left hd hlen
  cases a
  cases b
  exact congrArg String.mk hdata

/-- Helper: full characterization of `_horizontal_inheritance` for a node
entry with a list `preferred_id`, a list `label_in_input` and a scalar
`represented_as`, with distinct identifier values: one virtual leaf per
zipped pair. -/
theorem horizontalInheritance_pid (k : String) (v : SchemaEntry)
    (pids labs : List String) (rep : String)
    (hp : v.preferred_id = some (.l pids))
    (hl : v.label_in_input = some (.l labs))
    (hr : v.represented_as = some (.s rep))
    (hnd : pids.Nodup) :
    horizontalInheritance k v .preferred_id = .ok
      ((pids.zip labs).map (fun pl =>
        (pl.1 ++ "." ++ k,
         { v with
           preferred_id := some (.s pl.1),
           label_in_input := some (.s pl.2),
           represented_as := some (.s rep),
           virtual := true,
           is_a := some (.l (k :: (match v.is_a with
             | some sl => toListSL sl
             | none => []))) }))) := by
  simp only [horizontalInheritance, hiField, hp, hl, hr, toListSL]
  rw [zip_replicate_of_le rep labs _ (by simp [le_max_iff])]
  rw [List.zip_map_right]
  have hkeys : (((pids.zip labs).map (Prod.map id (fun l => (l, rep)))).map
      (fun t => t.1 ++ "." ++ k)).Nodup := by
    have h1 : ((pids.zip labs).map (Prod.map id (fun l => (l, rep)))).map
        (fun t => t.1 ++ "." ++ k) =
        ((pids.zip labs).map Prod.fst).map (fun p => p ++ "." ++ k) := by
      simp [Function.comp]
    rw [h1]
    refine List.Nodup.map ?_ (hnd.sublist (map_fst_zip_sublist pids labs))
    intro a b hab
    exact append_string_inj ("." ++ k) (by simpa [String.append_assoc] using hab)
  refine congrArg Except.ok ?_
  refine Eq.trans (foldl_alSet_fresh (fun t : String × String × String => t.1 ++ "." ++ k)
      ((fun t => { v with
        preferred_id := some (.s t.1),
        label_in_input := some (.s t.2.1),
        represented_as := some (.s t.2.2),
        virtual := true,
        is_a := some (.l (k :: (match v.is_a with
          | some sl => toListSL sl
          | none => []))) }) : String × String × String → SchemaEntry)
      ((pids.zip labs).map (Prod.map id (fun l => (l, rep)))) []
      (by intro a _; simp [alGet]) hkeys) ?_
  rw [List.nil_append, List.map_map]
  refine congrArg (fun f => List.map f (pids.zip labs)) (funext ?_)
  intro t
  obtain ⟨p, l⟩ := t
  simp only [Function.comp, Prod.map, id]
  cases hia : v.is_a with
  | none => rfl
  | some sl => cases sl <;> rfl

/-- Helper: full characterization of `_horizontal_inheritance` for an edge
entry with a list `source`, a list `label_in_input` and a scalar
`represented_as`, with distinct source values: one virtual leaf per zipped
pair. -/
theorem horizontalInheritance_src (k : String) (v : SchemaEntry)
    (srcs labs : List String) (rep : String)
    (hs : v.source = some (.l srcs))
    (hl : v.label_in_input = some (.l labs))
    (hr : v.represented_as = some (.s rep))
    (hle : labs.length ≤ srcs.length)
    (hnd : srcs.Nodup) :
    horizontalInheritance k v .source = .ok
      ((srcs.zip labs).map (fun pl =>
        (pl.1 ++ "." ++ k,
         { v with
           source := some (.s pl.1),
           label_in_input := some (.s pl.2),
           represented_as := some (.s rep),
           virtual := true,
           is_a := some (.l (k :: (match v.is_a with
             | some sl => toListSL sl
             | none => []))) }))) := by
  simp only [horizontalInheritance, hiField, hs, hl, hr, pyLenSL]
  rw [zip_replicate_of_le rep labs srcs.length hle]
  rw [List.zip_map_right]
  have hkeys : (((srcs.zip labs).map (Prod.map id (fun l => (l, rep)))).map
      (fun t => t.1 ++ "." ++ k)).Nodup := by
    have h1 : ((srcs.zip labs).map (Prod.map id (fun l => (l, rep)))).map
        (fun t => t.1 ++ "." ++ k) =
        ((srcs.zip labs).map Prod.fst).map (fun p => p ++ "." ++ k) := by
      simp [Function.comp]
    rw [h1]
    refine List.Nodup.map ?_ (hnd.sublist (map_fst_zip_sublist srcs labs))
    intro a b hab
    exact append_string_inj ("." ++ k) (by simpa [String.append_assoc] using hab)
  refine congrArg Except.ok ?_
  refine Eq.trans (foldl_alSet_fresh (fun t : String × String × String => t.1 ++ "." ++ k)
      ((fun t => { v with
        source := some (.s t.1),
        label_in_input := some (.s t.2.1),
        represented_as := some (.s t.2.2),
        virtual := true,
        is_a := some (.l (k :: (match v.is_a with
          | some sl => toListSL sl
          | none => []))) }) : String × String × String → SchemaEntry)
      ((srcs.zip labs).map (Prod.map id (fun l => (l, rep)))) []
      (by intro a _; simp [alGet]) hkeys) ?_
  rw [List.nil_append, List.map_map]
  refine congrArg (fun f => List.map f (srcs.zip labs)) (funext ?_)
  intro t
  obtain ⟨p, l⟩ := t
  simp only [Function.comp, Prod.map, id]

/-- C1: translating `("p1", "protein", {"taxon": 9606, "name": "x"})` against
a schema declaring `protein` with properties `{name, score, taxon}` yields
exactly one node, labelled `"Protein"`, whose props mapping holds exactly
`name = "x"`, `score = None`, `taxon = 9606`, `id = "p1"`, `id_type = "id"`:
whitelist filtering keeps declared keys, inserts the absent `score` as
`None`, and duplicates id and id type into the properties. -/
theorem c1_protein_node_scenario :
    c1Out.1.length = 1 ∧ c1Out.2 = [] ∧
    ∀ n ∈ c1Out.1,
      n.label = "Protein" ∧
      alGet n.props "name" = some (PVal.vstr "x") ∧
      alGet n.props "score" = some PVal.vnone ∧
      alGet n.props "taxon" = some (PVal.vint 9606) ∧
      alGet n.props "id" = some (PVal.vstr "p1") ∧
      alGet n.props "id_type" = some (PVal.vstr "id") ∧
      n.props.length = 5 := by
  decide

/-- Helper: every reified relationship built by `translateEdgeItem` has both
connecting edges pointing at the reified node, and its label pair is either
the directed pair, the part-of pair, or a pair of truthy role values. -/
theorem translateEdgeItem_relAsNode_inv (bt : String) (e : SchemaEntry)
    (q : Quint) (r : BioCypherRelAsNode)
    (h : translateEdgeItem bt e q = .ok (.relAsNode r)) :
    r.source_edge.target = r.node.id ∧ r.target_edge.target = r.node.id ∧
    ((r.source_edge.label = PVal.vstr "IS_SOURCE_OF" ∧
      r.target_edge.label = PVal.vstr "IS_TARGET_OF") ∨
     (r.source_edge.label = PVal.vstr "IS_PART_OF" ∧
      r.target_edge.label = PVal.vstr "IS_PART_OF") ∨
     (pyTruthy r.source_edge.label ∧ pyTruthy r.target_edge.label)) := by
  obtain ⟨id?, src, tar, ty, props⟩ := q
  simp only [translateEdgeItem] at h
  cases hrep : e.represented_as with
  | none => simp [hrep] at h
  | some rep =>
    simp only [hrep] at h
    by_cases hnode : rep = .s "node"
    · simp only [hnode, if_pos rfl] at h
      by_cases hdir : pyEqTrue (alGet (filterProps e props) "directed")
      · simp only [hdir, if_pos rfl] at h
        cases h
        refine ⟨rfl, rfl, Or.inl ⟨rfl, rfl⟩⟩
      · simp only [hdir] at h
        by_cases hroles : (pyTruthyO (alGet (filterProps e props) "src_role") &&
            pyTruthyO (alGet (filterProps e props) "tar_role")) = true
        · simp only [hroles, if_true, if_false, Bool.false_eq_true] at h
          cases h
          refine ⟨rfl, rfl, Or.inr (Or.inr ?_)⟩
          simp only [Bool.and_eq_true] at hroles
          constructor
          · cases hsr : alGet (filterProps e props) "src_role" with
            | none => rw [hsr] at hroles; simp [pyTruthyO] at hroles
            | some v =>
              rw [hsr] at hroles
              simpa [pyTruthyO, Option.getD] using hroles.1
          · cases htr : alGet (filterProps e props) "tar_role" with
            | none => rw [htr] at hroles; simp [pyTruthyO] at hroles
            | some v =>
              rw [htr] at hroles
              simpa [pyTruthyO, Option.getD] using hroles.2
        · simp only [hroles, if_false, Bool.false_eq_true] at h
          cases h
          refine ⟨rfl, rfl, Or.inr (Or.inl ⟨rfl, rfl⟩)⟩
    · simp [hnode] at h

/-- Helper: every reified relationship in the output of the translation loop
comes from `translateEdgeItem`. -/
theorem translateEdgesGo_relAsNode_src (leaves : Leaves)
    (nt : List (String × Nat)) (qs : List Quint)
    (res : List EdgeOut × List (String × Nat))
    (h : translateEdgesGo leaves nt qs = .ok res)
    (r : BioCypherRelAsNode) (hr : EdgeOut.relAsNode r ∈ res.1) :
    ∃ bt e q, translateEdgeItem bt e q = .ok (.relAsNode r) := by
  induction qs generalizing nt res with
  | nil =>
    simp only [translateEdgesGo] at h
    cases h
    simp at hr
  | cons q rest ih =>
    simp only [translateEdgesGo] at h
    split at h
    · rename_i bt hbt
      split at h
      · rename_i e hval
        split at h
        · cases h
        · rename_i out hout
          split at h
          · cases h
          · rename_i res2 hrest
            simp only [Except.ok.injEq] at h
            subst h
            rcases List.mem_cons.mp hr with hH | hT
            · exact ⟨bt, e, q, by rw [hout, hH]⟩
            · exact ih _ _ hrest hT
      · cases h
    · exact ih _ _ h hr

/-- C5 (amended): (a) every RelAsNode produced by edge translation has both
connecting edges targeting the reified node's id, and its label pair is the
directed pair, the part-of pair, or a truthy user-declared role pair;
(b) precisely, the pair is `IS_SOURCE_OF`/`IS_TARGET_OF` when the filtered
property `directed` equals `True`, the user-declared `(src_role, tar_role)`
values when both are present with truthy values, and
`IS_PART_OF`/`IS_PART_OF` otherwise. -/
theorem c5_relasnode_invariants :
    (∀ (leaves : Leaves) (nt : List (String × Nat)) (items : List EdgeItem)
       (res : List EdgeOut × List (String × Nat)),
       translateEdges leaves nt items = .ok res →
       ∀ r : BioCypherRelAsNode, EdgeOut.relAsNode r ∈ res.1 →
         r.source_edge.target = r.node.id ∧ r.target_edge.target = r.node.id ∧
         ((r.source_edge.label = PVal.vstr "IS_SOURCE_OF" ∧
           r.target_edge.label = PVal.vstr "IS_TARGET_OF") ∨
          (r.source_edge.label = PVal.vstr "IS_PART_OF" ∧
           r.target_edge.label = PVal.vstr "IS_PART_OF") ∨
          (pyTruthy r.source_edge.label ∧ pyTruthy r.target_edge.label))) ∧
    (∀ (bt : String) (e : SchemaEntry) (q : Quint) (r : BioCypherRelAsNode),
       translateEdgeItem bt e q = .ok (.relAsNode r) →
       (pyEqTrue (alGet (filterProps e q.2.2.2.2) "directed") = true →
          r.source_edge.label = PVal.vstr "IS_SOURCE_OF" ∧
          r.target_edge.label = PVal.vstr "IS_TARGET_OF") ∧
       (pyEqTrue (alGet (filterProps e q.2.2.2.2) "directed") = false →
        pyTruthyO (alGet (filterProps e q.2.2.2.2) "src_role") = true →
        pyTruthyO (alGet (filterProps e q.2.2.2.2) "tar_role") = true →
          r.source_edge.label = (alGet (filterProps e q.2.2.2.2) "src_role").getD .vnone ∧
          r.target_edge.label = (alGet (filterProps e q.2.2.2.2) "tar_role").getD .vnone) ∧
       (pyEqTrue (alGet (filterProps e q.2.2.2.2) "directed") = false →
        (pyTruthyO (alGet (filterProps e q.2.2.2.2) "src_role") &&
         pyTruthyO (alGet (filterProps e q.2.2.2.2) "tar_role")) = false →
          r.source_edge.label = PVal.vstr "IS_PART_OF" ∧
          r.target_edge.label = PVal.vstr "IS_PART_OF")) := by
  constructor
  · intro leaves nt items res h r hr
    have hsrc : ∃ bt e q, translateEdgeItem bt e q = .ok (.relAsNode r) := by
      cases items with
      | nil => simp [translateEdges] at h
      | cons first rest =>
        simp only [translateEdges] at h
        split at h
        · cases h
        · rename_i quints hq
          exact translateEdgesGo_relAsNode_src leaves nt quints res h r hr
    obtain ⟨bt, e, q, hq⟩ := hsrc
    exact translateEdgeItem_relAsNode_inv bt e q r hq
  · intro bt e q r h
    obtain ⟨id?, src, tar, ty, props⟩ := q
    simp only [translateEdgeItem] at h ⊢
    cases hrep : e.represented_as with
    | none => simp [hrep] at h
    | some rep =>
      simp only [hrep] at h
      by_cases hnode : rep = .s "node"
      · simp only [hnode, if_pos rfl] at h
        by_cases hdir : pyEqTrue (alGet (filterProps e props) "directed")
        · simp only [hdir, if_pos rfl] at h
          cases h
          refine ⟨fun _ => ⟨rfl, rfl⟩, fun hd _ _ => ?_, fun hd _ => ?_⟩ <;>
            simp [hdir] at hd
        · simp only [hdir] at h
          by_cases hroles : (pyTruthyO (alGet (filterProps e props) "src_role") &&
              pyTruthyO (alGet (filterProps e props) "tar_role")) = true
          · simp only [hroles, if_true, if_false, Bool.false_eq_true] at h
            cases h
            refine ⟨fun hd => ?_, fun _ _ _ => ⟨rfl, rfl⟩, fun _ hr2 => ?_⟩
            · exact absurd hd hdir
            · rw [hroles] at hr2; cases hr2
          · simp only [hroles, if_false, Bool.false_eq_true] at h
            cases h
            refine ⟨fun hd => absurd hd hdir, fun _ hs ht => ?_, fun _ _ => ⟨rfl, rfl⟩⟩
            rw [hs, ht] at hroles
            simp at hroles
      · simp [hnode] at h

/-- Witness for C5: the amended theorem applied at a concrete directed
post-translational record. -/
theorem c5_witness :
    c5R.source_edge.target = c5R.node.id ∧ c5R.target_edge.target = c5R.node.id ∧
    c5R.source_edge.label = PVal.vstr "IS_SOURCE_OF" ∧
    c5R.target_edge.label = PVal.vstr "IS_TARGET_OF" := by
  have h : translateEdgeItem "post_translational" c5Entry c5Q =
      .ok (.relAsNode c5R) := by rfl
  have ha := translateEdgeItem_relAsNode_inv "post_translational" c5Entry c5Q c5R h
  have hb := c5_relasnode_invariants.2 "post_translational" c5Entry c5Q c5R h
  have hd : pyEqTrue (alGet (filterProps c5Entry c5Q.2.2.2.2) "directed") = true := by
    decide
  exact ⟨ha.1, ha.2.1, (hb.1 hd).1, (hb.1 hd).2⟩

/-- Counterexample for C5: with both `src_role` and `tar_role` present in the
filtered properties (but `src_role` falsy), the connecting edges are labelled
`IS_PART_OF`/`IS_PART_OF`, not the user-declared pair, refuting the claim's
"when both of those properties are present" condition. -/
theorem c5_counterexample :
    c5xRel.map (fun r => (r.source_edge.label, r.target_edge.label)) =
      some (PVal.vstr "IS_PART_OF", PVal.vstr "IS_PART_OF") ∧
    c5xRel.map (fun r => (alHas r.node.props "src_role",
      alHas r.node.props "tar_role")) = some (true, true) ∧
    (PVal.vstr "IS_PART_OF", PVal.vstr "IS_PART_OF") ≠
      (PVal.vstr "", PVal.vstr "x") := by
  decide

/-- C4: evaluating `translate_edges` at the claim's scenario input shows the
reified node id is the underscore concatenation of source, target and the
filtered property VALUES (`"G1_G2_True_-1"`), not a sorted `key=value`
rendering — contradicting the spec sentence and the repository's own test
(`test_translate.py` expects `"G15258_G16347_directed=True_effect=-1"` for
the analogous input). -/
theorem c4_node_id_values_only :
    c4Rel.map (fun r => r.node.id) = some "G1_G2_True_-1" ∧
    c4Rel.map (fun r => (r.source_edge.label, r.target_edge.label)) =
      some (PVal.vstr "IS_SOURCE_OF", PVal.vstr "IS_TARGET_OF") ∧
    some "G1_G2_True_-1" ≠ some "G1_G2_directed=True_effect=-1" := by
  decide

/-- Helper: reading back the key just set. -/
theorem alGet_alSet_self {α : Type} (m : List (String × α)) (k : String)
    (v : α) : alGet (alSet m k v) k = some v := by
  induction m with
  | nil => simp [alSet, alGet]
  | cons p rest ih =>
    obtain ⟨k2, v2⟩ := p
    by_cases h : k2 = k
    · simp [alSet, alGet, h]
    · simp [alSet, alGet, h, ih]

/-- Helper: setting one key does not change another. -/
theorem alGet_alSet_ne {α : Type} (m : List (String × α)) (k k2 : String)
    (v : α) (h : k ≠ k2) : alGet (alSet m k v) k2 = alGet m k2 := by
  induction m with
  | nil => simp [alSet, alGet, h]
  | cons p rest ih =>
    obtain ⟨k3, v3⟩ := p
    by_cases h3 : k3 = k
    · subst h3
      simp [alSet, alGet, h]
    · simp only [alSet, if_neg h3, alGet]
      by_cases h32 : k3 = k2 <;> simp [h32, ih]

/-- Helper: the counter just bumped by `_record_no_type`. -/
theorem recordNoType_get_self (t : String) (nt : List (String × Nat)) :
    alGet (recordNoType t nt) t =
      some (match alGet nt t with
            | some n => if n ≠ 0 then n + 1 else 1
            | none => 1) := by
  simp only [recordNoType]
  cases h : alGet nt t with
  | none => simp [alGet_alSet_self]
  | some n =>
    by_cases hn : n ≠ 0 <;> simp [hn, alGet_alSet_self]

/-- Helper: `_record_no_type` leaves other counters unchanged. -/
theorem recordNoType_get_ne (t k : String) (nt : List (String × Nat))
    (h : t ≠ k) : alGet (recordNoType t nt) k = alGet nt k := by
  simp only [recordNoType]
  cases hg : alGet nt t with
  | none => simp [alGet_alSet_ne _ _ _ _ h]
  | some n =>
    by_cases hn : n ≠ 0 <;> simp [hn, alGet_alSet_ne _ _ _ _ h]

/-- Helper: `_record_no_type` keeps all counters positive. -/
theorem recordNoType_pos (t : String) (nt : List (String × Nat))
    (hnt : ∀ k n, alGet nt k = some n → 0 < n) :
    ∀ k n, alGet (recordNoType t nt) k = some n → 0 < n := by
  intro k n h
  by_cases hk : t = k
  · subst hk
    rw [recordNoType_get_self] at h
    simp only [Option.some.injEq] at h
    cases hg : alGet nt t with
    | none => rw [hg] at h; simp at h; omega
    | some m =>
      have hmpos := hnt t m hg
      have hm0 : m ≠ 0 := by omega
      rw [hg] at h
      dsimp only at h
      rw [if_pos hm0] at h
      omega
  · rw [recordNoType_get_ne _ _ _ hk] at h
    exact hnt k n h

/-- Helper: the outputs of `translate_nodes` are exactly the translations of
the records whose raw type resolves; unresolvable records yield nothing. -/
theorem translateNodes_outputs (leaves : Leaves) (recs : List NodeRec)
    (nt : List (String × Nat)) :
    (translateNodes leaves nt recs).1 = recs.filterMap (fun rec =>
      match getBlType leaves rec.2.1 with
      | some bt => (alGet leaves bt).map (fun e =>
          Node.new rec.1 bt (getPreferredId e) (filterProps e rec.2.2))
      | none => none) := by
  induction recs generalizing nt with
  | nil => simp [translateNodes]
  | cons rec rest ih =>
    obtain ⟨i, ty, ps⟩ := rec
    cases hbt : getBlType leaves ty with
    | none => simp [translateNodes, hbt, ih]
    | some bt =>
      cases hval : alGet leaves bt with
      | none => simp [translateNodes, hbt, hval, ih]
      | some e => simp [translateNodes, hbt, hval, ih]

/-- Helper: the missing-type counter for an unresolvable raw type equals its
number of occurrences (plus any pre-existing count). -/
theorem translateNodes_count (leaves : Leaves) (t : String)
    (ht : getBlType leaves t = none) (recs : List NodeRec) :
    ∀ nt : List (String × Nat), (∀ k n, alGet nt k = some n → 0 < n) →
      alGet (translateNodes leaves nt recs).2 t =
        (match alGet nt t with
         | some n => some (n + (recs.filter (fun rec => rec.2.1 = t)).length)
         | none =>
           if (recs.filter (fun rec => rec.2.1 = t)).length = 0 then none
           else some (recs.filter (fun rec => rec.2.1 = t)).length) := by
  induction recs with
  | nil =>
    intro nt hnt
    simp only [translateNodes, List.filter_nil, List.length_nil]
    cases alGet nt t <;> simp
  | cons rec rest ih =>
    intro nt hnt
    obtain ⟨i, ty, ps⟩ := rec
    by_cases hty : ty = t
    · subst hty
      simp only [translateNodes, ht]
      rw [ih (recordNoType ty nt) (recordNoType_pos ty nt hnt)]
      rw [recordNoType_get_self]
      cases hg : alGet nt ty with
      | none =>
        simp [hg, List.filter_cons]
        ring
      | some n =>
        have hpos := hnt ty n hg
        have hn0 : n ≠ 0 := by omega
        simp [hg, List.filter_cons, hn0]
        ring
    · have hfc : List.filter (fun rec => decide (rec.2.1 = t))
          (((i, ty, ps) : NodeRec) :: rest) =
          List.filter (fun rec => decide (rec.2.1 = t)) rest := by
        simp [List.filter_cons, hty]
      cases hbt : getBlType leaves ty with
      | none =>
        simp only [translateNodes, hbt]
        rw [ih (recordNoType ty nt) (recordNoType_pos ty nt hnt),
          recordNoType_get_ne _ _ _ hty, hfc]
      | some bt =>
        cases hval : alGet leaves bt with
        | none =>
          simp only [translateNodes, hbt, hval]
          rw [ih nt hnt, hfc]
        | some e =>
          simp only [translateNodes, hbt, hval]
          rw [ih nt hnt, hfc]

/-- C6: for every record whose raw type string has no mapping, translation
yields no output entity (the outputs are exactly the translations of the
resolvable records), never raises (the embedding is a total function), and
the accessor `get_missing_bl_types` reports, for each unmapped raw type,
exactly its number of occurrences. -/
theorem c6_unresolved_type_dropped_and_counted :
    ∀ (leaves : Leaves) (recs : List NodeRec) (t : String),
      getBlType leaves t = none →
      (translateNodes leaves [] recs).1 = recs.filterMap (fun rec =>
        match getBlType leaves rec.2.1 with
        | some bt => (alGet leaves bt).map (fun e =>
            Node.new rec.1 bt (getPreferredId e) (filterProps e rec.2.2))
        | none => none) ∧
      alGet (getMissingBlTypes (translateNodes leaves [] recs).2) t =
        (if (recs.filter (fun rec => rec.2.1 = t)).length = 0 then none
         else some (recs.filter (fun rec => rec.2.1 = t)).length) := by
  intro leaves recs t ht
  refine ⟨translateNodes_outputs leaves recs [], ?_⟩
  have h := translateNodes_count leaves t ht recs []
    (by intro k n h; simp [alGet] at h)
  simpa [getMissingBlTypes, alGet] using h

/-- Witness for C6: two records of the unmapped type `unknown` yield no
output and a missing-type count of exactly 2. -/
theorem c6_witness :
    getBlType c1Leaves "unknown" = none ∧
    (translateNodes c1Leaves [] [("x", "unknown", []), ("y", "unknown", [])]).1 = [] ∧
    alGet (getMissingBlTypes
      (translateNodes c1Leaves [] [("x", "unknown", []), ("y", "unknown", [])]).2)
      "unknown" = some 2 := by
  have h := c6_unresolved_type_dropped_and_counted c1Leaves
    [("x", "unknown", []), ("y", "unknown", [])] "unknown" (by decide)
  exact ⟨by decide, by rw [h.1]; decide, by rw [h.2]; decide⟩

/-- C10: consuming `translate_edges` on an empty input raises (the
unconditional peek of the first element fails inside the generator and
surfaces to the caller as an error) instead of yielding zero items. -/
theorem c10_translate_edges_empty_raises :
    ∀ (leaves : Leaves) (nt : List (String × Nat)),
      translateEdges leaves nt [] = .error .runtimeStopIteration :=
  fun _ _ => rfl

/-- Helper: a successful lookup is a member of the association list. -/
theorem alGet_mem {α : Type} (m : List (String × α)) (k : String) (v : α)
    (h : alGet m k = some v) : (k, v) ∈ m := by
  induction m with
  | nil => simp [alGet] at h
  | cons p rest ih =>
    obtain ⟨k2, v2⟩ := p
    by_cases h2 : k2 = k
    · subst h2
      simp [alGet] at h
      simp [h]
    · simp only [alGet, if_neg h2] at h
      simp [ih h]

/-- Helper: members of an updated association list are the new pair or old
members. -/
theorem mem_alSet {α : Type} (m : List (String × α)) (k : String) (v : α)
    (kv : String × α) (h : kv ∈ alSet m k v) : kv = (k, v) ∨ kv ∈ m := by
  induction m with
  | nil =>
    simp [alSet] at h
    exact Or.inl h
  | cons p rest ih =>
    obtain ⟨k2, v2⟩ := p
    by_cases h2 : k2 = k
    · simp only [alSet, if_pos h2] at h
      rcases List.mem_cons.mp h with h3 | h3
      · exact Or.inl h3
      · exact Or.inr (List.mem_cons.mpr (Or.inr h3))
    · simp only [alSet, if_neg h2] at h
      rcases List.mem_cons.mp h with h3 | h3
      · exact Or.inr (List.mem_cons.mpr (Or.inl h3))
      · rcases ih h3 with h4 | h4
        · exact Or.inl h4
        · exact Or.inr (List.mem_cons.mpr (Or.inr h4))

/-- Helper: vertical property inheritance is the identity on a schema with
no `is_a` keys. -/
theorem verticalGo_noop (keys : List String) (s : Leaves)
    (h : ∀ kv ∈ s, kv.2.is_a = none) : verticalGo keys s = .ok s := by
  induction keys with
  | nil => rfl
  | cons k rest ih =>
    simp only [verticalGo]
    cases hg : alGet s k with
    | none => exact ih
    | some v =>
      have hv : v.is_a = none := h (k, v) (alGet_mem s k v hg)
      simp [hv]
      exact ih

/-- Helper: the leaf-expansion loop leaves the accumulated leaves unchanged
when no entry has a list `preferred_id` or `source`. -/
theorem findLeavesGo_noop (keys : List String) (leaves : Leaves) :
    ∀ s : Leaves,
      (∀ kv ∈ s, (∀ xs, kv.2.preferred_id ≠ some (.l xs)) ∧
        (∀ xs, kv.2.source ≠ some (.l xs))) →
      findLeavesGo keys s leaves = .ok leaves := by
  induction keys with
  | nil => intro s _; rfl
  | cons k rest ih =>
    intro s h
    simp only [findLeavesGo]
    cases hg : alGet s k with
    | none => exact ih s h
    | some v =>
      have hv1 : ∀ xs, v.preferred_id ≠ some (.l xs) :=
        (h (k, v) (alGet_mem s k v hg)).1
      have hv2 : ∀ xs, v.source ≠ some (.l xs) :=
        (h (k, v) (alGet_mem s k v hg)).2
      by_cases hrep : v.represented_as.isNone = true
      · simp only [hrep, if_true]
        exact ih s h
      · have hstep : ∀ v2 : SchemaEntry,
            (∀ xs, v2.preferred_id ≠ some (.l xs)) →
            (∀ xs, v2.source ≠ some (.l xs)) →
            ∀ kv ∈ alSet s k v2,
              (∀ xs, kv.2.preferred_id ≠ some (.l xs)) ∧
              (∀ xs, kv.2.source ≠ some (.l xs)) := by
          intro v2 h1 h2 kv hkv
          rcases mem_alSet s k v2 kv hkv with h3 | h3
          · subst h3
            exact ⟨h1, h2⟩
          · exact h kv h3
        cases hpid : v.preferred_id with
        | none =>
          cases hsrc : v.source with
          | none =>
            simp [hrep, hpid, hsrc]
            refine ih _ (hstep _ ?_ ?_)
            · intro xs hx
              simp at hx
            · intro xs hx
              simp [hsrc] at hx
          | some sl =>
            cases sl with
            | s y =>
              simp [hrep, hpid, hsrc]
              refine ih _ (hstep _ ?_ ?_)
              · intro xs hx
                simp at hx
              · intro xs hx
                simp [hsrc] at hx
            | l xs => exact absurd hsrc (hv2 xs)
        | some sl =>
          cases sl with
          | l xs => exact absurd hpid (hv1 xs)
          | s x =>
            cases hsrc : v.source with
            | none =>
              simp [hrep, hpid, hsrc]
              refine ih _ (hstep _ ?_ ?_)
              · intro xs hx
                simp [hpid] at hx
              · intro xs hx
                simp [hsrc] at hx
            | some sl2 =>
              cases sl2 with
              | s y =>
                simp [hrep, hpid, hsrc]
                refine ih _ (hstep _ ?_ ?_)
                · intro xs hx
                  simp [hpid] at hx
                · intro xs hx
                  simp [hsrc] at hx
              | l xs => exact absurd hsrc (hv2 xs)

/-- Helper: first components of an explicitly paired map. -/
theorem map_fst_pairfn {A B : Type} (g : A -> String) (f : A -> B)
    (L : List A) :
    (L.map (fun a => (g a, f a))).map Prod.fst = L.map g := by
  induction L with
  | nil => rfl
  | cons a rest ih => simp [ih]

/-- C2 (amended): for every schema entry whose `preferred_id` and `source`
are scalar, the leaf-expansion step for that entry leaves the accumulated
leaves unchanged, creating no virtual leaves; for an entry with a list
`preferred_id` (nodes) or a list `source` (edges) of length L, a
matching-length `label_in_input` list, a scalar `represented_as` and
distinct identifier values, expansion creates exactly L virtual leaves,
each named `<value>.<originalname>`, each marked virtual, each with `is_a`
equal to the original name followed by the original entry's own parent list
(so exactly `[originalname]` when the entry declares no `is_a`). -/
theorem c2_virtual_leaf_expansion :
    (∀ (k : String) (rest : List String) (s leaves : Leaves) (v : SchemaEntry),
       alGet s k = some v →
       (∀ xs, v.preferred_id ≠ some (.l xs)) →
       (∀ xs, v.source ≠ some (.l xs)) →
       ∃ s2, findLeavesGo (k :: rest) s leaves = findLeavesGo rest s2 leaves) ∧
    (∀ (k : String) (v : SchemaEntry) (pids labs : List String) (rep : String),
       v.preferred_id = some (.l pids) →
       v.label_in_input = some (.l labs) →
       v.represented_as = some (.s rep) →
       labs.length = pids.length → pids.Nodup →
       ∃ out, horizontalInheritance k v .preferred_id = .ok out ∧
         out.length = pids.length ∧
         out.map Prod.fst = pids.map (fun p => p ++ "." ++ k) ∧
         ∀ kv ∈ out, kv.2.virtual = true ∧
           kv.2.is_a = some (.l (k :: (match v.is_a with
             | some sl => toListSL sl
             | none => [])))) ∧
    (∀ (k : String) (v : SchemaEntry) (srcs labs : List String) (rep : String),
       v.source = some (.l srcs) →
       v.label_in_input = some (.l labs) →
       v.represented_as = some (.s rep) →
       labs.length = srcs.length → srcs.Nodup →
       ∃ out, horizontalInheritance k v .source = .ok out ∧
         out.length = srcs.length ∧
         out.map Prod.fst = srcs.map (fun p => p ++ "." ++ k) ∧
         ∀ kv ∈ out, kv.2.virtual = true ∧
           kv.2.is_a = some (.l (k :: (match v.is_a with
             | some sl => toListSL sl
             | none => [])))) := by
  refine ⟨?_, ?_, ?_⟩
  · intro k rest s leaves v hg hpid hsrc
    by_cases hrep : v.represented_as.isNone = true
    · exact ⟨s, by simp [findLeavesGo, hg, hrep]⟩
    · refine ⟨alSet s k (if v.preferred_id.isNone = true then
        { v with preferred_id := some (.s "id") } else v), ?_⟩
      cases hp : v.preferred_id with
      | none =>
        cases hsc : v.source with
        | none => simp [findLeavesGo, hg, hrep, hp, hsc]
        | some sl =>
          cases sl with
          | s y => simp [findLeavesGo, hg, hrep, hp, hsc]
          | l xs => exact absurd hsc (hsrc xs)
      | some sl =>
        cases sl with
        | l xs => exact absurd hp (hpid xs)
        | s x =>
          cases hsc : v.source with
          | none => simp [findLeavesGo, hg, hrep, hp, hsc]
          | some sl2 =>
            cases sl2 with
            | s y => simp [findLeavesGo, hg, hrep, hp, hsc]
            | l xs => exact absurd hsc (hsrc xs)
  · intro k v pids labs rep hp hl hr hlen hnd
    refine ⟨_, horizontalInheritance_pid k v pids labs rep hp hl hr hnd,
      ?_, ?_, ?_⟩
    · simp [List.length_zip, hlen]
    · have hfst : (pids.zip labs).map Prod.fst = pids :=
        List.map_fst_zip pids labs (by omega)
      refine Eq.trans (map_fst_pairfn _ _ _) ?_
      have h2 : ((pids.zip labs).map Prod.fst).map (fun p => p ++ "." ++ k) =
          (pids.zip labs).map (fun pl => pl.1 ++ "." ++ k) := by
        rw [List.map_map]
        rfl
      rw [← h2, hfst]
    · intro kv hkv
      simp only [List.mem_map] at hkv
      obtain ⟨pl, _, hkveq⟩ := hkv
      subst hkveq
      exact ⟨rfl, rfl⟩
  · intro k v srcs labs rep hsv hl hr hlen hnd
    refine ⟨_, horizontalInheritance_src k v srcs labs rep hsv hl hr
      (by omega) hnd, ?_, ?_, ?_⟩
    · simp [List.length_zip, hlen]
    · have hfst : (srcs.zip labs).map Prod.fst = srcs :=
        List.map_fst_zip srcs labs (by omega)
      refine Eq.trans (map_fst_pairfn _ _ _) ?_
      have h2 : ((srcs.zip labs).map Prod.fst).map (fun p => p ++ "." ++ k) =
          (srcs.zip labs).map (fun pl => pl.1 ++ "." ++ k) := by
        rw [List.map_map]
        rfl
      rw [← h2, hfst]
    · intro kv hkv
      simp only [List.mem_map] at hkv
      obtain ⟨pl, _, hkveq⟩ := hkv
      subst hkveq
      exact ⟨rfl, rfl⟩

/-- Witness for C2: the expansion step for a scalar `protein` entry passes
the accumulated leaves through unchanged; a `gene` entry with two preferred
identifiers and two input labels yields the two virtual leaves with their
derived names; an `interaction` edge entry with two sources and two input
labels does the same through the `source` path. -/
theorem c2_witness :
    (∃ s2, findLeavesGo ["protein"] [("protein", c2wEntry)] [] =
       findLeavesGo [] s2 []) ∧
    (∃ out, horizontalInheritance "gene" c2wlEntry .preferred_id = .ok out ∧
       out.length = (["hgnc", "ensg"] : List String).length ∧
       out.map Prod.fst =
         (["hgnc", "ensg"] : List String).map (fun p => p ++ "." ++ "gene") ∧
       ∀ kv ∈ out, kv.2.virtual = true ∧
         kv.2.is_a = some (.l ("gene" :: (match c2wlEntry.is_a with
           | some sl => toListSL sl
           | none => [])))) ∧
    (∃ out, horizontalInheritance "interaction" c2wsEntry .source = .ok out ∧
       out.length = (["s1", "s2"] : List String).length ∧
       out.map Prod.fst =
         (["s1", "s2"] : List String).map
           (fun p => p ++ "." ++ "interaction") ∧
       ∀ kv ∈ out, kv.2.virtual = true ∧
         kv.2.is_a = some (.l ("interaction" :: (match c2wsEntry.is_a with
           | some sl => toListSL sl
           | none => [])))) := by
  refine ⟨?_, ?_, ?_⟩
  · exact c2_virtual_leaf_expansion.1 "protein" [] [("protein", c2wEntry)] []
      c2wEntry rfl
      (by intro xs hx; simp [c2wEntry, SchemaEntry.empty] at hx)
      (by intro xs hx; simp [c2wEntry, SchemaEntry.empty] at hx)
  · exact c2_virtual_leaf_expansion.2.1 "gene" c2wlEntry ["hgnc", "ensg"]
      ["hl", "el"] "node" rfl rfl rfl rfl (by decide)
  · exact c2_virtual_leaf_expansion.2.2 "interaction" c2wsEntry ["s1", "s2"]
      ["il1", "il2"] "edge" rfl rfl rfl rfl (by decide)

/-- Counterexample for C2: for an entry that itself declares
`is_a: parent`, the virtual leaf `a.prot` has `is_a == [prot, parent]`, not
`[prot]` as the claim states. -/
theorem c2_counterexample :
    c2xIsA = some (some (.l ["prot", "parent"])) ∧
    some (some (StrOrList.l ["prot", "parent"])) ≠
      some (some (StrOrList.l ["prot"])) := by
  decide

/-- C3 (amended): mismatched list lengths during virtual-leaf expansion do
not raise an exception; the element-wise zip silently truncates to the
shortest list, producing min(len(preferred_id), len(label_in_input)) virtual
leaves. -/
theorem c3_mismatched_lengths_truncate :
    ∀ (k : String) (v : SchemaEntry) (pids labs : List String) (rep : String),
      v.preferred_id = some (.l pids) →
      v.label_in_input = some (.l labs) →
      v.represented_as = some (.s rep) →
      pids.Nodup →
      ∃ out, horizontalInheritance k v .preferred_id = .ok out ∧
        out.length = min pids.length labs.length := by
  intro k v pids labs rep hp hl hr hnd
  exact ⟨_, horizontalInheritance_pid k v pids labs rep hp hl hr hnd,
    by simp [List.length_zip]⟩

/-- Witness for C3: the amended theorem applied to the concrete mismatched
entry (2 identifiers, 3 input labels) yields exactly 2 leaves. -/
theorem c3_witness :
    ∃ out, horizontalInheritance "n" c3Entry .preferred_id = .ok out ∧
      out.length = 2 := by
  obtain ⟨out, hout, hlen2⟩ := c3_mismatched_lengths_truncate "n" c3Entry
    ["a", "b"] ["x", "y", "z"] "node" rfl rfl rfl (by decide)
  exact ⟨out, hout, by simpa using hlen2⟩

/-- Counterexample for C3: an entry with `preferred_id` of length 2 and
`label_in_input` of length 3 expands with no exception into exactly the 2
zip-truncated virtual leaves (the third input label is silently dropped). -/
theorem c3_counterexample :
    c3Res.map (fun l => l.map Prod.fst) = some ["a.n", "b.n"] ∧
    c3Res.map List.length = some 2 ∧ (2 : Nat) ≠ 3 := by
  decide

/-- C9 (amended): (a) reverse query translation raises a not-implemented
error when it reaches a list-mapped key whose token occurs in the current
query — in particular whenever the first key (in mapping order) whose token
occurs in the original query has a list mapping; (b) when every reverse
mapping is a single name, substitution is performed and no error is ever
raised. Earlier substitutions rewrite the query, so the check is against the
evolving query, not the original one. -/
theorem c9_reverse_translate_ambiguity :
    (∀ (ms1 ms2 : List (String × RVal)) (k : String) (xs : List String)
       (q : String),
       (∀ p ∈ ms1, strIn (":" ++ p.1 ++ ")") q = false ∧
          strIn (":" ++ p.1 ++ "]") q = false) →
       (strIn (":" ++ k ++ ")") q || strIn (":" ++ k ++ "]") q) = true →
       reverseTranslate (ms1 ++ (k, .list xs) :: ms2) q =
         .error (.notImplemented k)) ∧
    (∀ (ms : List (String × RVal)) (q : String),
       (∀ p ∈ ms, ∀ xs, p.2 ≠ .list xs) →
       ∃ r, reverseTranslate ms q = .ok r) := by
  constructor
  · intro ms1
    induction ms1 with
    | nil =>
      intro ms2 k xs q _ htok
      simp [reverseTranslate, htok]
    | cons p ms1i ih =>
      intro ms2 k xs q habsent htok
      obtain ⟨pk, pv⟩ := p
      have hp := habsent (pk, pv) (by simp)
      simp only [List.cons_append, reverseTranslate, hp.1, hp.2,
        Bool.or_self, if_false, Bool.false_eq_true]
      exact ih ms2 k xs q (fun p2 hp2 => habsent p2 (by simp [hp2])) htok
  · intro ms
    induction ms with
    | nil => intro q _; exact ⟨q, rfl⟩
    | cons p rest ih =>
      intro q hsingle
      obtain ⟨pk, pv⟩ := p
      cases pv with
      | list xs => exact absurd rfl (hsingle (pk, .list xs) (by simp) xs)
      | single r =>
        simp only [reverseTranslate]
        by_cases htok : (strIn (":" ++ pk ++ ")") q ||
            strIn (":" ++ pk ++ "]") q) = true
        · simp only [htok, if_true]
          exact ih _ (fun p2 hp2 => hsingle p2 (by simp [hp2]))
        · simp only [htok, if_false, Bool.false_eq_true]
          exact ih q (fun p2 hp2 => hsingle p2 (by simp [hp2]))

/-- Witness for C9: a query whose first occurring token is list-mapped
raises, and an all-single mapping substitutes without error. -/
theorem c9_witness :
    reverseTranslate [("X", .single "W"), ("L", .list ["a", "b"])]
      "MATCH (n:L)" = .error (.notImplemented "L") ∧
    ∃ r, reverseTranslate [("P", .single "p")] "(:P)" = .ok r := by
  constructor
  · exact c9_reverse_translate_ambiguity.1 [("X", .single "W")] [] "L"
      ["a", "b"] "MATCH (n:L)" (by decide) (by decide)
  · exact c9_reverse_translate_ambiguity.2 [("P", .single "p")] "(:P)"
      (by intro p hp xs; simp at hp; simp [hp])

/-- Counterexample for C9: reverse mappings `{A: B, B: [x, y]}` and query
`(:A)`. The original query contains only the token `:A)`, whose reverse
mapping is a single name, and no list-mapped token — so the claim demands a
substituted query and no error. But substituting `:A)` → `:B)` creates the
list-mapped token `:B)`, and the code then raises the not-implemented
error. -/
theorem c9_counterexample :
    reverseTranslate [("A", .single "B"), ("B", .list ["x", "y"])] "(:A)" =
      .error (.notImplemented "B") ∧
    strIn ":A)" "(:A)" = true ∧
    strIn ":B)" "(:A)" = false ∧ strIn ":B]" "(:A)" = false := by
  exact ⟨rfl, by decide, by decide, by decide⟩

/-- Helper: set equality of key lists is reflexive. -/
theorem seteqStr_refl (l : List String) : seteqStr l l = true := by
  simp [seteqStr, List.all_eq_true]

/-- Helper: the node-derived reference dict has the node's property keys. -/
theorem nodeDerivedProps_keys (ps : List (String × PVal)) :
    (nodeDerivedProps ps).map Prod.fst = ps.map Prod.fst := by
  induction ps with
  | nil => rfl
  | cons p rest ih => simp [nodeDerivedProps] at ih ⊢

/-- Counterexample for C7: writing the same edge (identical source, target
and label) twice in one call produces TWO identical data lines in the part
file and succeeds — edges are not deduplicated by the batch writer. -/
theorem c7_counterexample :
    c7Res.1 = true ∧
    c7Res.2.parts = [("Likes", ["a;1;b;Likes\n", "a;1;b;Likes\n"])] ∧
    (["a;1;b;Likes\n", "a;1;b;Likes\n"] : List String).length ≠ 1 := by
  decide

/-- Counterexample for C8: a batch with two nodes of the same type and
differing property key sets, but the same id — the second is dropped by the
duplicate-id check before the consistency check, and the write call returns
True (success, one data line), not the claimed failure indicator. -/
theorem c8_counterexample :
    (match c8xRes with
     | .ok (b, st) => some (b, st.parts.length)
     | .error _ => none) = some (true, 1) ∧
    c8xN1.label = c8xN2.label ∧
    c8xN1.id = c8xN2.id ∧
    seteqStr (c8xN1.props.map Prod.fst) (c8xN2.props.map Prod.fst) = false := by
  decide

/-- Helper: a dict assignment never produces an empty dict. -/
theorem alSet_isEmpty {α : Type} (m : List (String × α)) (k : String)
    (v : α) : (alSet m k v).isEmpty = false := by
  cases m with
  | nil => simp [alSet]
  | cons p rest =>
    obtain ⟨k2, v2⟩ := p
    by_cases h : k2 = k <;> simp [alSet, h]

/-- C7 (amended): the batch writer deduplicates NODES by id, within and
across write calls: writing the same node id twice in one call produces
exactly one data line in the part files (the first occurrence wins), the
duplicate's type name is recorded in the `duplicate_types` attribute, the id
is kept in `seen_node_ids`, and a later call on the same writer writes no
line for that id. (Edges are not deduplicated, and duplicate node ids are
only logged, not stored — see the counterexample.) -/
theorem c7_node_dedup_within_and_across :
    ∀ (ad : BLAdapter) (cfg : WCfg) (batchSize : Nat) (n1 n2 : WNode)
      (st : WState) (entry : SchemaEntry) (blv : Option (List String)),
      n1.id ≠ "" →
      n1.id ∉ st.seen_node_ids →
      n2.id = n1.id →
      n2.label = n1.label →
      alGet ad.leaves n1.label = some entry →
      entry.properties = none →
      alGet ad.biolink_leaves n1.label = some blv →
      ∃ st2, writeNodeData ad cfg batchSize [n1, n2] st = .ok (true, st2) ∧
        st2.parts = st.parts ++ [(nameSentenceToPascal n1.label,
          [renderNodeLine cfg (nodeDerivedProps n1.props)
            (ancestorsLabel cfg blv n1.label) n1])] ∧
        n1.label ∈ st2.duplicate_types ∧
        n1.id ∈ st2.seen_node_ids ∧
        ∃ st3, writeNodeData ad cfg batchSize [n2] st2 = .ok (true, st3) ∧
          st3.parts = st2.parts := by
  intro ad cfg batchSize n1 n2 st entry blv hne hseen hid hlbl hleaf hprops hblv
  by_cases hdt : n1.label ∈ st.duplicate_types
  · have h1 : writeNodeData ad cfg batchSize [n1, n2] st = .ok (true,
        { st with
          seen_node_ids := st.seen_node_ids ++ [n1.id],
          node_property_dict :=
            alSet st.node_property_dict n1.label (nodeDerivedProps n1.props),
          parts := st.parts ++ [(nameSentenceToPascal n1.label,
            [renderNodeLine cfg (nodeDerivedProps n1.props)
              (ancestorsLabel cfg blv n1.label) n1])] }) := by
      simp [writeNodeData, nodeLoop, flushNodeBins, writeSingleNodeList,
        alHas, alGet, alSet, alUpdateAll, hne, hseen, hid, hlbl, hleaf,
        hprops, hblv, hdt, nodeDerivedProps_keys, seteqStr_refl]
    refine ⟨_, h1, by simp, by simp [hdt], by simp, _, ?_, rfl⟩
    simp [writeNodeData, nodeLoop, flushNodeBins, alUpdateAll, hid, hlbl,
      hne, hdt]
  · have h1 : writeNodeData ad cfg batchSize [n1, n2] st = .ok (true,
        { st with
          seen_node_ids := st.seen_node_ids ++ [n1.id],
          duplicate_types := st.duplicate_types ++ [n1.label],
          node_property_dict :=
            alSet st.node_property_dict n1.label (nodeDerivedProps n1.props),
          parts := st.parts ++ [(nameSentenceToPascal n1.label,
            [renderNodeLine cfg (nodeDerivedProps n1.props)
              (ancestorsLabel cfg blv n1.label) n1])] }) := by
      simp [writeNodeData, nodeLoop, flushNodeBins, writeSingleNodeList,
        alHas, alGet, alSet, alUpdateAll, hne, hseen, hid, hlbl, hleaf,
        hprops, hblv, hdt, nodeDerivedProps_keys, seteqStr_refl]
    refine ⟨_, h1, by simp, by simp, by simp, _, ?_, rfl⟩
    simp [writeNodeData, nodeLoop, flushNodeBins, alUpdateAll, hid, hlbl,
      hne, hdt]

/-- C8 (amended): for a type without schema-declared properties (reference
key set = first surviving node's keys), a batch containing two nodes of the
same type with distinct truthy ids and differing property key sets
(order-insensitively) makes the write call return the failure indicator
False — not raise; conversely such a batch whose two key sets agree does not
fail the consistency check. (Nodes dropped by the empty-id or duplicate-id
checks are never compared — see the counterexample.) -/
theorem c8_property_uniformity :
    (∀ (ad : BLAdapter) (cfg : WCfg) (batchSize : Nat) (n1 n2 : WNode)
       (st : WState) (entry : SchemaEntry) (blv : Option (List String)),
       n1.id ≠ "" → n2.id ≠ "" →
       n1.id ∉ st.seen_node_ids → n2.id ∉ st.seen_node_ids →
       n2.id ≠ n1.id → n2.label = n1.label →
       alGet ad.leaves n1.label = some entry →
       entry.properties = none →
       alGet ad.biolink_leaves n1.label = some blv →
       2 < batchSize →
       seteqStr (n1.props.map Prod.fst) (n2.props.map Prod.fst) = false →
       ∃ st2, writeNodes ad cfg batchSize [n1, n2] st = .ok (false, st2)) ∧
    (∀ (ad : BLAdapter) (cfg : WCfg) (batchSize : Nat) (n1 n2 : WNode)
       (st : WState) (entry : SchemaEntry) (blv : Option (List String)),
       n1.id ≠ "" → n2.id ≠ "" →
       n1.id ∉ st.seen_node_ids → n2.id ∉ st.seen_node_ids →
       n2.id ≠ n1.id → n2.label = n1.label →
       alGet ad.leaves n1.label = some entry →
       entry.properties = none →
       alGet ad.biolink_leaves n1.label = some blv →
       2 < batchSize →
       seteqStr (n1.props.map Prod.fst) (n2.props.map Prod.fst) = true →
       ∃ st2, writeNodes ad cfg batchSize [n1, n2] st = .ok (true, st2)) := by
  constructor
  · intro ad cfg batchSize n1 n2 st entry blv hne1 hne2 hseen1 hseen2 hdiff
      hlbl hleaf hprops hblv hbs hkeys
    refine ⟨{ st with seen_node_ids := st.seen_node_ids ++ [n1.id] ++ [n2.id] }, ?_⟩
    simp [writeNodes, writeNodeData, nodeLoop, flushNodeBins,
      writeSingleNodeList, alHas, alGet, alSet, alUpdateAll, hne1, hne2,
      hseen1, hseen2, hdiff, hlbl, hleaf, hprops, hblv, hbs, hkeys,
      nodeDerivedProps_keys, seteqStr_refl]
  · intro ad cfg batchSize n1 n2 st entry blv hne1 hne2 hseen1 hseen2 hdiff
      hlbl hleaf hprops hblv hbs hkeq
    refine ⟨{ st with
      seen_node_ids := st.seen_node_ids ++ [n1.id] ++ [n2.id],
      node_property_dict :=
        alSet st.node_property_dict n1.label (nodeDerivedProps n1.props),
      parts := st.parts ++ [(nameSentenceToPascal n1.label,
        [renderNodeLine cfg (nodeDerivedProps n1.props)
           (ancestorsLabel cfg blv n1.label) n1,
         renderNodeLine cfg (nodeDerivedProps n1.props)
           (ancestorsLabel cfg blv n1.label) n2])] }, ?_⟩
    simp [writeNodes, writeNodeData, nodeLoop, flushNodeBins,
      writeSingleNodeList, alHas, alGet, alSet, alUpdateAll, alSet_isEmpty,
      hne1, hne2, hseen1, hseen2, hdiff, hlbl, hleaf, hprops, hblv, hbs,
      hkeq, nodeDerivedProps_keys, seteqStr_refl]

/-- Witness for C7: writing the same node id twice on a fresh writer yields
one data line, the recorded duplicate type, and a no-op second call. -/
theorem c7_witness :
    ∃ st2, writeNodeData c8xAd w78Cfg 1000000 [c8xN1, c8xN2] WState.empty =
        .ok (true, st2) ∧
      st2.parts = WState.empty.parts ++ [(nameSentenceToPascal c8xN1.label,
        [renderNodeLine w78Cfg (nodeDerivedProps c8xN1.props)
          (ancestorsLabel w78Cfg (some ["Protein"]) c8xN1.label) c8xN1])] ∧
      c8xN1.label ∈ st2.duplicate_types ∧
      c8xN1.id ∈ st2.seen_node_ids ∧
      ∃ st3, writeNodeData c8xAd w78Cfg 1000000 [c8xN2] st2 = .ok (true, st3) ∧
        st3.parts = st2.parts :=
  c7_node_dedup_within_and_across c8xAd w78Cfg 1000000 c8xN1 c8xN2 WState.empty
    { SchemaEntry.empty with
      represented_as := some (.s "node"),
      label_in_input := some (.s "protein") }
    (some ["Protein"])
    (by decide) (by decide) rfl rfl rfl rfl rfl

/-- Witness for C8: two distinct-id protein nodes with differing key sets
make the write call return False; with agreeing key sets it returns True. -/
theorem c8_witness :
    (∃ st2, writeNodes c8xAd w78Cfg 1000000
        [⟨"p1", "protein", "id", [("a", PVal.vint 1)]⟩,
         ⟨"p2", "protein", "id", [("b", PVal.vstr "z")]⟩] WState.empty =
        .ok (false, st2)) ∧
    (∃ st2, writeNodes c8xAd w78Cfg 1000000
        [⟨"p1", "protein", "id", [("a", PVal.vint 1)]⟩,
         ⟨"p2", "protein", "id", [("a", PVal.vint 2)]⟩] WState.empty =
        .ok (true, st2)) := by
  constructor
  · exact c8_property_uniformity.1 c8xAd w78Cfg 1000000 _ _ WState.empty
      { SchemaEntry.empty with
        represented_as := some (.s "node"),
        label_in_input := some (.s "protein") }
      (some ["Protein"]) (by decide) (by decide) (by decide) (by decide)
      (by decide) rfl rfl rfl rfl (by decide) (by decide)
  · exact c8_property_uniformity.2 c8xAd w78Cfg 1000000 _ _ WState.empty
      { SchemaEntry.empty with
        represented_as := some (.s "node"),
        label_in_input := some (.s "protein") }
      (some ["Protein"]) (by decide) (by decide) (by decide) (by decide)
      (by decide) rfl rfl rfl rfl (by decide) (by decide)
